import Mathlib

/-!
Verification of the affine-nonce signature algebra implemented in this
repository: the EdDSA-style flawed signer and its recovery attack
(`eddsa_affine/attacker.py`, `scripts/flawed_eddsa_signer.py`), the
ECDSA-style flawed signer (`scripts/flawed_signer.py`), and the fixture
generator (`scripts/generate_fixtures.py`).

Python integers are modelled as `Int` (Python `%` agrees with `Int.emod`
for a positive modulus), byte strings as `List Nat`, and the external
hash functions (`hashlib.sha512`, `hashlib.sha256`) and elliptic-curve
operations as explicit function parameters, since they live outside this
repository.
-/

set_option maxRecDepth 10000

/-! ### Modular exponentiation by repeated squaring

Used only to certify primality of the two curve orders via Lucas
certificates; kernel-reducible (structural recursion on fuel). -/

/-- Fuel-bounded square-and-multiply; computes `a ^ e % n` when `e < 2 ^ fuel`. -/
def powModAux : Nat → Nat → Nat → Nat → Nat
  | 0, _, _, n => 1 % n
  | fuel + 1, a, e, n =>
    if e = 0 then 1 % n
    else
      let r := powModAux fuel ((a * a) % n) (e / 2) n
      if e % 2 = 1 then (a * r) % n else r

/-- Modular exponentiation: `powMod a e n = a ^ e % n`. -/
def powMod (a e n : Nat) : Nat :=
  powModAux (e + 1) a e n

/-! ### Lucas primality certificates -/

/-- Product of a factor list with multiplicities. -/
def certProd : List (Nat × Nat) → Nat
  | [] => 1
  | (q, e) :: l => q ^ e * certProd l

/-! ### Shared byte-string and Python-semantics helpers -/

/-- Little-endian byte decoding, Python `int.from_bytes(bs, "little")`. -/
def leBytesToNat : List Nat → Nat
  | [] => 0
  | b :: t => b + 256 * leBytesToNat t

/-- Big-endian byte decoding, Python `int.from_bytes(bs, "big")`. -/
def beBytesToNat (bs : List Nat) : Nat :=
  leBytesToNat bs.reverse

/-- Python `x.to_bytes(len, "little")`: the `len` little-endian base-256
digits of `x`.  CPython raises `OverflowError` when `x < 0` or
`256 ^ len ≤ x`; every call site in this development passes a value
already reduced into range, where this total model is exact. -/
def pyToBytesLE (len x : Nat) : List Nat :=
  (List.range len).map fun i => x / 256 ^ i % 256

/-- Fuel-bounded extended Euclidean algorithm: for `b ≤ fuel`,
`egcd fuel a b = (gcd a b, x, y)` with `gcd a b = x*a + y*b`.
Kernel-reducible, unlike Mathlib's well-founded `Nat.xgcd`. -/
def egcd : Nat → Nat → Nat → Nat × Int × Int
  | _, a, 0 => (a, 1, 0)
  | 0, a, _ + 1 => (a, 1, 0)
  | fuel + 1, a, b + 1 =>
    let r := egcd fuel (b + 1) (a % (b + 1))
    (r.1, r.2.2, r.2.1 - ((a / (b + 1) : Nat) : Int) * r.2.2)

/-- Model of Python three-argument `pow(x, -1, n)` for `n > 0`: `some` of
the modular inverse of `x` in `[0, n)` when `gcd(x, n) = 1`, otherwise
`none`, standing for the raised `ValueError`.  The value is produced by
the extended Euclidean algorithm, which yields the same canonical
representative in `[0, n)` that CPython returns. -/
def pyInvMod (x n : Int) : Option Int :=
  if Int.gcd x n = 1 then
    some (Int.sign x * (egcd n.natAbs x.natAbs n.natAbs).2.1 % n)
  else none

instance instDecidableEqExcept {e a : Type} [DecidableEq e] [DecidableEq a] :
    DecidableEq (Except e a) := fun x y =>
  match x, y with
  | .error e1, .error e2 =>
    if h : e1 = e2 then isTrue (by rw [h])
    else isFalse (fun hh => by injection hh; contradiction)
  | .error _, .ok _ => isFalse (fun hh => Except.noConfusion hh)
  | .ok _, .error _ => isFalse (fun hh => Except.noConfusion hh)
  | .ok v1, .ok v2 =>
    if h : v1 = v2 then isTrue (by rw [h])
    else isFalse (fun hh => by injection hh; contradiction)

/-- Continuation byte of a UTF-8 sequence: `0x80`--`0xBF`. -/
def utf8Cont (b : Nat) : Bool :=
  decide (128 ≤ b ∧ b ≤ 191)

/-- Whether CPython's strict `bytes.decode("utf-8")` succeeds: well-formed
UTF-8 per RFC 3629 — no overlong encodings, no surrogates, nothing above
`U+10FFFF`.  On `false` the decode raises `UnicodeDecodeError`. -/
def isValidUtf8 : List Nat → Bool
  | [] => true
  | b :: rest =>
    if b ≤ 127 then isValidUtf8 rest
    else if 194 ≤ b ∧ b ≤ 223 then
      match rest with
      | c1 :: rest1 => utf8Cont c1 && isValidUtf8 rest1
      | [] => false
    else if b = 224 then
      match rest with
      | c1 :: c2 :: rest2 =>
        decide (160 ≤ c1 ∧ c1 ≤ 191) && utf8Cont c2 && isValidUtf8 rest2
      | _ => false
    else if 225 ≤ b ∧ b ≤ 236 then
      match rest with
      | c1 :: c2 :: rest2 => utf8Cont c1 && utf8Cont c2 && isValidUtf8 rest2
      | _ => false
    else if b = 237 then
      match rest with
      | c1 :: c2 :: rest2 =>
        decide (128 ≤ c1 ∧ c1 ≤ 159) && utf8Cont c2 && isValidUtf8 rest2
      | _ => false
    else if 238 ≤ b ∧ b ≤ 239 then
      match rest with
      | c1 :: c2 :: rest2 => utf8Cont c1 && utf8Cont c2 && isValidUtf8 rest2
      | _ => false
    else if b = 240 then
      match rest with
      | c1 :: c2 :: c3 :: rest3 =>
        decide (144 ≤ c1 ∧ c1 ≤ 191) && utf8Cont c2 && utf8Cont c3 && isValidUtf8 rest3
      | _ => false
    else if 241 ≤ b ∧ b ≤ 243 then
      match rest with
      | c1 :: c2 :: c3 :: rest3 =>
        utf8Cont c1 && utf8Cont c2 && utf8Cont c3 && isValidUtf8 rest3
      | _ => false
    else if b = 244 then
      match rest with
      | c1 :: c2 :: c3 :: rest3 =>
        decide (128 ≤ c1 ∧ c1 ≤ 143) && utf8Cont c2 && utf8Cont c3 && isValidUtf8 rest3
      | _ => false
    else false

/-- A raised Python exception, distinguishing the kinds the modelled code
can raise during signing: `TypeError` (`None % n` after the point at
infinity yields no x-coordinate), `ValueError` (`pow(x, -1, n)` on a
non-invertible `x`), and `UnicodeDecodeError` (`message.decode("utf-8")`
on non-UTF-8 bytes). -/
inductive PyError where
  | typeError
  | valueError
  | unicodeDecodeError
deriving DecidableEq

/-! ### `eddsa_affine/attacker.py` -/

namespace EddsaAttacker

/-- Ed25519 curve order (`CURVE_ORDER` in `eddsa_affine/attacker.py`). -/
def CURVE_ORDER : Nat := 2 ^ 252 + 27742317777372353535851937790883648493

/-- `compute_h(r, public_key, message)`: SHA-512 of
`r.to_bytes(32, "little") || public_key || message`, decoded little-endian
and reduced mod the curve order.  `sha512` is `hashlib.sha512(...).digest`,
an external dependency passed as a parameter. -/
def compute_h (sha512 : List Nat → List Nat) (r : Int) (public_key message : List Nat) : Int :=
  let r_bytes := pyToBytesLE 32 r.toNat
  let data := r_bytes ++ public_key ++ message
  let h := sha512 data
  (leBytesToNat h : Int) % (CURVE_ORDER : Int)

/-- Outcome of `attack`: the raised `ValueError` on mismatched keys, the
`None` sentinel, or a recovered private key. -/
inductive AttackResult where
  | mismatchedKeys
  | indeterminate
  | recovered (key : Int)
deriving DecidableEq

/-- `attack(sig1, sig2, alpha, beta)` from `eddsa_affine/attacker.py`.
Signatures are `(r, s, public_key, message)` tuples.  The `except
ValueError` fallback around the modular inverse is the `none` branch of
`pyInvMod`. -/
def attack (sha512 : List Nat → List Nat) (sig1 sig2 : Int × Int × List Nat × List Nat)
    (alpha beta : Int) : AttackResult :=
  let (r1, s1, public_key1, message1) := sig1
  let (r2, s2, public_key2, message2) := sig2
  if public_key1 ≠ public_key2 then .mismatchedKeys
  else
    let public_key := public_key1
    let q : Int := (CURVE_ORDER : Int)
    let h1 := compute_h sha512 r1 public_key message1
    let h2 := compute_h sha512 r2 public_key message2
    let numerator := (s2 - alpha * s1 - beta) % q
    let denominator := (h2 - alpha * h1) % q
    if denominator = 0 then .indeterminate
    else
      match pyInvMod denominator q with
      | none => .indeterminate
      | some denominator_inv => .recovered (numerator * denominator_inv % q)

end EddsaAttacker

/-! ### `scripts/flawed_eddsa_signer.py` -/

namespace FlawedEdDSASigner

/-- Ed25519 curve order (`CURVE_ORDER` in `scripts/flawed_eddsa_signer.py`). -/
def CURVE_ORDER : Nat := 2 ^ 252 + 27742317777372353535851937790883648493

/-- Signer instance state: `self.private_key` and `self.public_key`.  The
nacl `SigningKey`/`VerifyKey` objects are external; `public_key` carries
whatever 32-byte encoding nacl derived. -/
structure Signer where
  private_key : List Nat
  public_key : List Nat
deriving DecidableEq

/-- `compute_h(r, public_key, message)` method: here `r` is already a byte
string. -/
def compute_h (sha512 : List Nat → List Nat) (r public_key message : List Nat) : Int :=
  let data := r ++ public_key ++ message
  let h := sha512 data
  (leBytesToNat h : Int) % (CURVE_ORDER : Int)

/-- The signing scalar `int.from_bytes(self.private_key[:32], "little") %
CURVE_ORDER` recomputed inside each signing loop. -/
def privateScalar (signer : Signer) : Int :=
  (leBytesToNat (signer.private_key.take 32) : Int) % (CURVE_ORDER : Int)

/-- One signature dict `{"message": m.hex(), "r": hex(r), "s": hex(s),
"public_key": pk.hex()}`.  The hex encodings are injective, so the record
is modelled by the underlying values. -/
structure SigRecord where
  message : List Nat
  r : Int
  s : Int
  public_key : List Nat
deriving DecidableEq

/-- Loop body of `sign_with_affine_nonces(messages, a, b, start_nonce)`.
The source skips the final `current_nonce` update on the last message;
updating unconditionally produces the same records. -/
def signAffineGo (sha512 : List Nat → List Nat) (signer : Signer) (a b : Int) :
    Int → List (List Nat) → List SigRecord
  | _, [] => []
  | current_nonce, message :: rest =>
    let q : Int := (CURVE_ORDER : Int)
    let r_int := current_nonce % q
    let r_bytes := pyToBytesLE 32 r_int.toNat
    let h := compute_h sha512 r_bytes signer.public_key message
    let s := (current_nonce + h * privateScalar signer) % q
    { message := message, r := r_int, s := s, public_key := signer.public_key }
      :: signAffineGo sha512 signer a b ((a * current_nonce + b) % q) rest

/-- `sign_with_affine_nonces(messages, a, b, start_nonce)` with the start
nonce supplied (when omitted the source draws it from `secrets`). -/
def sign_with_affine_nonces (sha512 : List Nat → List Nat) (signer : Signer)
    (messages : List (List Nat)) (a b : Int) (start_nonce : Int) : List SigRecord :=
  signAffineGo sha512 signer a b start_nonce messages

/-- `sign_with_counter_nonce(messages, start_nonce)`: literally
`sign_with_affine_nonces(messages, a=1, b=1, start_nonce=start_nonce)`. -/
def sign_with_counter_nonce (sha512 : List Nat → List Nat) (signer : Signer)
    (messages : List (List Nat)) (start_nonce : Int) : List SigRecord :=
  sign_with_affine_nonces sha512 signer messages 1 1 start_nonce

/-- Loop body of `sign_with_hardcoded_step`, indexed by `i`. -/
def signStepGo (sha512 : List Nat → List Nat) (signer : Signer) (step start_nonce : Int) :
    Nat → List (List Nat) → List SigRecord
  | _, [] => []
  | i, message :: rest =>
    let q : Int := (CURVE_ORDER : Int)
    let nonce := (start_nonce + (i : Int) * step) % q
    let r_int := nonce % q
    let r_bytes := pyToBytesLE 32 r_int.toNat
    let h := compute_h sha512 r_bytes signer.public_key message
    let s := (nonce + h * privateScalar signer) % q
    { message := message, r := r_int, s := s, public_key := signer.public_key }
      :: signStepGo sha512 signer step start_nonce (i + 1) rest

/-- `sign_with_hardcoded_step(messages, step, start_nonce)` with the start
nonce supplied. -/
def sign_with_hardcoded_step (sha512 : List Nat → List Nat) (signer : Signer)
    (messages : List (List Nat)) (step start_nonce : Int) : List SigRecord :=
  signStepGo sha512 signer step start_nonce 0 messages

/-- `__init__(private_key)`.  `randomKey` is the 32-byte seed
`SigningKey.generate()` would produce (external randomness), `publicKeyOf`
the external nacl public-key derivation.  `if private_key:` is Python
truthiness: `None` and `b""` both take the generate branch. -/
def init (randomKey : List Nat) (publicKeyOf : List Nat → List Nat)
    (private_key : Option (List Nat)) : Except String Signer :=
  match private_key with
  | some k =>
    if k.length ≠ 0 then
      if k.length ≠ 32 then .error "Private key must be 32 bytes"
      else .ok { private_key := k, public_key := publicKeyOf k }
    else .ok { private_key := randomKey, public_key := publicKeyOf randomKey }
  | none => .ok { private_key := randomKey, public_key := publicKeyOf randomKey }

end FlawedEdDSASigner

/-! ### `scripts/flawed_signer.py` -/

namespace FlawedSigner

/-- secp256k1 group order (`CURVE_ORDER` in `scripts/flawed_signer.py`). -/
def CURVE_ORDER : Nat :=
  0xFFFFFFFFFFFFFFFFFFFFFFFFFFFFFFFEBAAEDCE6AF48A03BBFD25E8CD0364141

/-- Signer instance state: `self.private_key` (the secret exponent).  The
`ecdsa` library key objects and the compressed `self.public_key` point are
external derivations and play no role in the claims below. -/
structure EcState where
  private_key : Int
deriving DecidableEq

/-- `__init__(private_key)`.  `randomKey` is the secret exponent
`SigningKey.generate(...)` would draw.  `if private_key:` is Python
truthiness: `None` and `0` both take the generate branch. -/
def init (randomKey : Int) (private_key : Option Int) : EcState :=
  match private_key with
  | some k => if k ≠ 0 then { private_key := k } else { private_key := randomKey }
  | none => { private_key := randomKey }

/-- `hash_message(message)`: SHA-256 of the message, decoded big-endian and
reduced mod the curve order.  `sha256` is `hashlib.sha256(...).digest`. -/
def hash_message (sha256 : List Nat → List Nat) (message : List Nat) : Int :=
  (beBytesToNat (sha256 message) : Int) % (CURVE_ORDER : Int)

/-- One signature dict from `sign_with_affine_nonces` /
`sign_with_counter_nonce`: `{"message": ..., "z": z, "r": r, "s": s,
"nonce_index": i}`.  The affine variant also stores a purely descriptive
`nonce_relation` string determined by `(i, a, b)`; it is presentation data
and not modelled. -/
structure SigRecord where
  message : List Nat
  z : Int
  r : Int
  s : Int
  nonce_index : Nat
deriving DecidableEq

/-- Loop body of `sign_with_affine_nonces(messages, base_nonce, a, b)`.
`pointX k` models `(k * G).x()` on secp256k1 — an external curve
operation — returning `none` for the point at infinity (`k * G` for
`k ≡ 0 (mod n)`), whose missing x-coordinate makes `... % n` raise;
`pyInvMod` returning `none` models the `ValueError` from `pow(k, -1, n)`;
appending the record runs `message.decode("utf-8")`, which raises
`UnicodeDecodeError` on non-UTF-8 bytes.  Any of these exceptions aborts
the whole call: no record list is returned and no retry happens. -/
def signAffineGo (sha256 : List Nat → List Nat) (pointX : Int → Option Int) (priv a b : Int) :
    Nat → Int → List (List Nat) → Except PyError (List SigRecord)
  | _, _, [] => .ok []
  | i, current_nonce, message :: rest =>
    let n : Int := (CURVE_ORDER : Int)
    let z := hash_message sha256 message
    match pointX current_nonce with
    | none => .error .typeError
    | some x =>
      let r := x % n
      match pyInvMod current_nonce n with
      | none => .error .valueError
      | some kinv =>
        let s := kinv * (z + r * priv) % n
        if isValidUtf8 message then
          match signAffineGo sha256 pointX priv a b (i + 1) ((a * current_nonce + b) % n) rest with
          | .error e => .error e
          | .ok recs =>
            .ok ({ message := message, z := z, r := r, s := s, nonce_index := i } :: recs)
        else .error .unicodeDecodeError

/-- `sign_with_affine_nonces(messages, base_nonce, a, b)` with the base
nonce supplied. -/
def sign_with_affine_nonces (sha256 : List Nat → List Nat) (pointX : Int → Option Int)
    (priv : Int) (messages : List (List Nat)) (base_nonce a b : Int) :
    Except PyError (List SigRecord) :=
  signAffineGo sha256 pointX priv a b 0 base_nonce messages

/-- One signature dict from `sign_with_same_nonce`:
`{"message": ..., "z": z, "r": r, "s": s}` (this variant records no
`nonce_index`). -/
structure SameNonceRecord where
  message : List Nat
  z : Int
  r : Int
  s : Int
deriving DecidableEq

/-- Loop body of `sign_with_same_nonce(messages, nonce)`: `r` was already
computed once outside the loop; each iteration hashes, inverts the fixed
nonce, and appends (where the decode can raise). -/
def signSameGo (sha256 : List Nat → List Nat) (priv nonce r : Int) :
    List (List Nat) → Except PyError (List SameNonceRecord)
  | [] => .ok []
  | message :: rest =>
    let n : Int := (CURVE_ORDER : Int)
    let z := hash_message sha256 message
    match pyInvMod nonce n with
    | none => .error .valueError
    | some kinv =>
      let s := kinv * (z + r * priv) % n
      if isValidUtf8 message then
        match signSameGo sha256 priv nonce r rest with
        | .error e => .error e
        | .ok recs => .ok ({ message := message, z := z, r := r, s := s } :: recs)
      else .error .unicodeDecodeError

/-- `sign_with_same_nonce(messages, nonce)` with the nonce supplied (when
omitted the source draws it from `secrets.randbelow`).  `r` is computed
once from the nonce before the loop and can raise there. -/
def sign_with_same_nonce (sha256 : List Nat → List Nat) (pointX : Int → Option Int)
    (priv : Int) (messages : List (List Nat)) (nonce : Int) :
    Except PyError (List SameNonceRecord) :=
  match pointX nonce with
  | none => .error .typeError
  | some x => signSameGo sha256 priv nonce (x % (CURVE_ORDER : Int)) messages

/-- The nonce consumed for message index `i` by
`sign_with_counter_nonce`: the literal loop expression
`nonce = (start_nonce + i*123456) % n`. -/
def counterNonce (start_nonce : Int) (i : Nat) : Int :=
  (start_nonce + (i : Int) * 123456) % (CURVE_ORDER : Int)

/-- Loop body of `sign_with_counter_nonce(messages, start_nonce)`. -/
def signCounterGo (sha256 : List Nat → List Nat) (pointX : Int → Option Int)
    (priv start_nonce : Int) : Nat → List (List Nat) → Except PyError (List SigRecord)
  | _, [] => .ok []
  | i, message :: rest =>
    let n : Int := (CURVE_ORDER : Int)
    let nonce := counterNonce start_nonce i
    let z := hash_message sha256 message
    match pointX nonce with
    | none => .error .typeError
    | some x =>
      let r := x % n
      match pyInvMod nonce n with
      | none => .error .valueError
      | some kinv =>
        let s := kinv * (z + r * priv) % n
        if isValidUtf8 message then
          match signCounterGo sha256 pointX priv start_nonce (i + 1) rest with
          | .error e => .error e
          | .ok recs =>
            .ok ({ message := message, z := z, r := r, s := s, nonce_index := i } :: recs)
        else .error .unicodeDecodeError

/-- `sign_with_counter_nonce(messages, start_nonce)` with the start nonce
supplied. -/
def sign_with_counter_nonce (sha256 : List Nat → List Nat) (pointX : Int → Option Int)
    (priv : Int) (messages : List (List Nat)) (start_nonce : Int) :
    Except PyError (List SigRecord) :=
  signCounterGo sha256 pointX priv start_nonce 0 messages

/-- The `current_nonce` consumed for message index `j` when
`sign_with_affine_nonces` starts from `cur`: the start value itself, then
`(a * nonce + b) % n` after every message. -/
def nonceAt (a b : Int) (cur : Int) : Nat → Int
  | 0 => cur
  | j + 1 => nonceAt a b ((a * cur + b) % (CURVE_ORDER : Int)) j

end FlawedSigner

/-! ### `scripts/generate_fixtures.py` -/

namespace GenerateFixtures

/-- The attribute names bound in the body of `class FlawedSigner` in
`scripts/flawed_signer.py`. -/
def flawedSignerMethods : List String :=
  ["__init__", "hash_message", "sign_with_same_nonce", "sign_with_affine_nonces",
   "sign_with_counter_nonce", "save_signatures", "get_key_info"]

/-- The five fixed test messages of `generate_fixtures()`:
`b"Transaction i: Send i ETH"` for `i = 1..5`, as ASCII bytes. -/
def fixtureMessages : List (List Nat) :=
  [[84, 114, 97, 110, 115, 97, 99, 116, 105, 111, 110, 32, 49, 58, 32, 83, 101, 110, 100, 32, 49, 32, 69, 84, 72],
   [84, 114, 97, 110, 115, 97, 99, 116, 105, 111, 110, 32, 50, 58, 32, 83, 101, 110, 100, 32, 50, 32, 69, 84, 72],
   [84, 114, 97, 110, 115, 97, 99, 116, 105, 111, 110, 32, 51, 58, 32, 83, 101, 110, 100, 32, 51, 32, 69, 84, 72],
   [84, 114, 97, 110, 115, 97, 99, 116, 105, 111, 110, 32, 52, 58, 32, 83, 101, 110, 100, 32, 52, 32, 69, 84, 72],
   [84, 114, 97, 110, 115, 97, 99, 116, 105, 111, 110, 32, 53, 58, 32, 83, 101, 110, 100, 32, 53, 32, 69, 84, 72]]

/-- Outcome of a run of `generate_fixtures()`: completion, an
`AttributeError` on a missing method, or a Python exception escaping one
of the signing stages; each failure carries the fixture files already
written when it was raised. -/
inductive RunOutcome where
  | completed (files : List String)
  | attributeError (method : String) (files : List String)
  | pyError (e : PyError) (files : List String)
deriving DecidableEq

/-- `generate_fixtures()`.  The constructor and both reachable signing
stages run the modelled `FlawedSigner` on the five fixture messages;
`randomExp` is the secret exponent `SigningKey.generate` would draw, and
`nonce_same` / `counter_start` the two `secrets.randbelow(CURVE_ORDER)`
draws made inside `sign_with_same_nonce` and `sign_with_counter_nonce`.
The key-info file is written before the first signing stage, and each
stage writes its file on success.  The `sign_with_hardcoded_step` lookup
is guarded by the class body: the name is not bound there, so the then
branch is unreachable and the later stages are not modelled further. -/
def generate_fixtures (sha256 : List Nat → List Nat) (pointX : Int → Option Int)
    (randomExp nonce_same counter_start : Int) : RunOutcome :=
  let signer := FlawedSigner.init randomExp none
  match FlawedSigner.sign_with_same_nonce sha256 pointX signer.private_key
      fixtureMessages nonce_same with
  | .error e => .pyError e ["test_key_info.json"]
  | .ok _ =>
    match FlawedSigner.sign_with_counter_nonce sha256 pointX signer.private_key
        fixtureMessages counter_start with
    | .error e => .pyError e ["test_key_info.json", "test_signatures_same_nonce.json"]
    | .ok _ =>
      if flawedSignerMethods.contains "sign_with_hardcoded_step" then
        .completed ["test_key_info.json", "test_signatures_same_nonce.json",
          "test_signatures_counter.json"]
      else
        .attributeError "sign_with_hardcoded_step"
          ["test_key_info.json", "test_signatures_same_nonce.json",
           "test_signatures_counter.json"]

end GenerateFixtures

/-! ### Spec-side definitions (for refinement comparisons) and named
subexpressions used in claim statements -/

/-- The EdDSA-style challenge transform following the words of the spec:
SHA-512 over `nonceReprBytes(32, little-endian) || publicKeyBytes ||
message`, decoded as a little-endian integer and reduced mod the Ed25519
scalar-field order. -/
def specEddsaChallenge (sha512 : List Nat → List Nat) (r : Int)
    (publicKey message : List Nat) : Int :=
  (leBytesToNat (sha512 (pyToBytesLE 32 r.toNat ++ publicKey ++ message)) : Int) %
    ((2 ^ 252 + 27742317777372353535851937790883648493 : Nat) : Int)

/-- The ECDSA-style challenge transform following the words of the spec:
SHA-256 of the message alone, decoded as a big-endian integer and reduced
mod the secp256k1 group order. -/
def specEcdsaChallenge (sha256 : List Nat → List Nat) (message : List Nat) : Int :=
  (beBytesToNat (sha256 message) : Int) %
    ((0xFFFFFFFFFFFFFFFFFFFFFFFFFFFFFFFEBAAEDCE6AF48A03BBFD25E8CD0364141 : Nat) : Int)

/-- The `denominator` subexpression of `EddsaAttacker.attack`:
`(h2 - alpha*h1) % q` over the attacker-recomputed challenges of two
signatures `(r1, _, pk, m1)`, `(r2, _, pk, m2)`. -/
def attackDenominator (sha512 : List Nat → List Nat) (r1 r2 alpha : Int)
    (pk m1 m2 : List Nat) : Int :=
  (EddsaAttacker.compute_h sha512 r2 pk m2 -
      alpha * EddsaAttacker.compute_h sha512 r1 pk m1) %
    (EddsaAttacker.CURVE_ORDER : Int)

/-! ### Theorems -/

theorem powModAux_eq (n : Nat) :
    ∀ fuel a e, e < 2 ^ fuel → powModAux fuel a e n = a ^ e % n := by
  intro fuel
  induction fuel with
  | zero =>
    intro a e he
    have h0 : e = 0 := by simpa using he
    subst h0
    simp [powModAux]
  | succ fuel ih =>
    intro a e he
    by_cases h0 : e = 0
    · subst h0; simp [powModAux]
    · have he2 : e / 2 < 2 ^ fuel := by
        rw [pow_succ] at he
        omega
      have hrec : powModAux fuel ((a * a) % n) (e / 2) n = a ^ (2 * (e / 2)) % n := by
        rw [ih _ _ he2, ← Nat.pow_mod]
        congr 1
        rw [two_mul, pow_add, ← pow_two, ← pow_mul, mul_comm (2 : Nat) (e / 2), pow_mul,
          pow_two]
      simp only [powModAux, if_neg h0, hrec]
      rcases Nat.mod_two_eq_zero_or_one e with h1 | h1
      · rw [if_neg (by omega), show 2 * (e / 2) = e by omega]
      · rw [if_pos h1, Nat.mul_mod, Nat.mod_mod_of_dvd _ dvd_rfl, ← Nat.mul_mod,
          ← pow_succ', show 2 * (e / 2) + 1 = e by omega]

theorem powMod_eq (a e n : Nat) : powMod a e n = a ^ e % n :=
  powModAux_eq n (e + 1) a e
    (lt_of_lt_of_le (Nat.lt_two_pow e) (Nat.pow_le_pow_right (by norm_num) (Nat.le_succ e)))

theorem powModAux_lt (n : Nat) (hn : 0 < n) :
    ∀ fuel a e, powModAux fuel a e n < n := by
  intro fuel
  induction fuel with
  | zero => intro a e; simpa [powModAux] using Nat.mod_lt _ hn
  | succ fuel ih =>
    intro a e
    by_cases h0 : e = 0
    · subst h0; simpa [powModAux] using Nat.mod_lt _ hn
    · simp only [powModAux, if_neg h0]
      rcases Nat.mod_two_eq_zero_or_one e with h1 | h1
      · simpa [h1] using ih ((a * a) % n) (e / 2)
      · simpa [h1] using Nat.mod_lt (a * powModAux fuel ((a * a) % n) (e / 2) n) hn

theorem powMod_lt (a e n : Nat) (hn : 0 < n) : powMod a e n < n :=
  powModAux_lt n hn (e + 1) a e

theorem eq_factor_of_prime_dvd_certProd {p : Nat} (hp : p.Prime) :
    ∀ l : List (Nat × Nat), (∀ pair ∈ l, Nat.Prime pair.1) → p ∣ certProd l →
      ∃ pair ∈ l, p = pair.1 := by
  intro l
  induction l with
  | nil =>
    intro _ h
    rw [certProd, Nat.dvd_one] at h
    exact absurd h hp.ne_one
  | cons pair l ih =>
    intro hl h
    obtain ⟨q, e⟩ := pair
    rcases (Nat.Prime.dvd_mul hp).mp h with h1 | h2
    · have hq : p ∣ q := Nat.Prime.dvd_of_dvd_pow hp h1
      have he : p = q :=
        (Nat.prime_dvd_prime_iff_eq hp (hl (q, e) (List.mem_cons_self _ _))).mp hq
      exact ⟨(q, e), List.mem_cons_self _ _, he⟩
    · rcases ih (fun pr hpr => hl pr (List.mem_cons_of_mem _ hpr)) h2 with ⟨pr, hpr, he⟩
      exact ⟨pr, List.mem_cons_of_mem _ hpr, he⟩

/-- Lucas primality test packaged over an explicit factor list for `p - 1`,
with all modular arithmetic expressed through the kernel-computable `powMod`. -/
theorem prime_of_lucas_cert (p g : Nat) (l : List (Nat × Nat)) (hp1 : 1 < p)
    (hl : ∀ pair ∈ l, Nat.Prime pair.1)
    (hprod : certProd l = p - 1)
    (hg : powMod g (p - 1) p = 1)
    (hne : ∀ pair ∈ l, powMod g ((p - 1) / pair.1) p ≠ 1) :
    Nat.Prime p := by
  haveI : Fact (1 < p) := ⟨hp1⟩
  have hp0 : 0 < p := by omega
  have hbr : ∀ e : Nat, ((g : ZMod p)) ^ e = ((powMod g e p : Nat) : ZMod p) := by
    intro e
    rw [powMod_eq, ZMod.natCast_mod, Nat.cast_pow]
  refine lucas_primality p (g : ZMod p) ?_ ?_
  · rw [hbr, hg, Nat.cast_one]
  · intro q hq hdvd
    rw [← hprod] at hdvd
    rcases eq_factor_of_prime_dvd_certProd hq l hl hdvd with ⟨pair, hmem, rfl⟩
    rw [hbr]
    intro hcontra
    apply hne pair hmem
    have h1 : ((powMod g ((p - 1) / pair.1) p : Nat) : ZMod p).val = (1 : ZMod p).val := by
      rw [hcontra]
    rwa [ZMod.val_cast_of_lt (powMod_lt _ _ _ hp0), ZMod.val_one] at h1

/-! ### Primality of the two curve orders

Lucas certificates, dependency-ordered. -/

theorem prime_120233 : Nat.Prime 120233 := by
  refine prime_of_lucas_cert 120233 3 [(2, 3), (7, 1), (19, 1), (113, 1)] (by norm_num) ?_ (by decide) (by decide) ?_
  · intro pair hmem
    simp only [List.mem_cons, List.not_mem_nil, or_false] at hmem
    rcases hmem with rfl|rfl|rfl|rfl
    · norm_num
    · norm_num
    · norm_num
    · norm_num
  · intro pair hmem
    simp only [List.mem_cons, List.not_mem_nil, or_false] at hmem
    rcases hmem with rfl|rfl|rfl|rfl <;> decide

theorem prime_132667 : Nat.Prime 132667 := by
  refine prime_of_lucas_cert 132667 5 [(2, 1), (3, 1), (22111, 1)] (by norm_num) ?_ (by decide) (by decide) ?_
  · intro pair hmem
    simp only [List.mem_cons, List.not_mem_nil, or_false] at hmem
    rcases hmem with rfl|rfl|rfl
    · norm_num
    · norm_num
    · norm_num
  · intro pair hmem
    simp only [List.mem_cons, List.not_mem_nil, or_false] at hmem
    rcases hmem with rfl|rfl|rfl <;> decide

theorem prime_137849 : Nat.Prime 137849 := by
  refine prime_of_lucas_cert 137849 3 [(2, 3), (17231, 1)] (by norm_num) ?_ (by decide) (by decide) ?_
  · intro pair hmem
    simp only [List.mem_cons, List.not_mem_nil, or_false] at hmem
    rcases hmem with rfl|rfl
    · norm_num
    · norm_num
  · intro pair hmem
    simp only [List.mem_cons, List.not_mem_nil, or_false] at hmem
    rcases hmem with rfl|rfl <;> decide

theorem prime_305873 : Nat.Prime 305873 := by
  refine prime_of_lucas_cert 305873 3 [(2, 4), (7, 1), (2731, 1)] (by norm_num) ?_ (by decide) (by decide) ?_
  · intro pair hmem
    simp only [List.mem_cons, List.not_mem_nil, or_false] at hmem
    rcases hmem with rfl|rfl|rfl
    · norm_num
    · norm_num
    · norm_num
  · intro pair hmem
    simp only [List.mem_cons, List.not_mem_nil, or_false] at hmem
    rcases hmem with rfl|rfl|rfl <;> decide

theorem prime_409477 : Nat.Prime 409477 := by
  refine prime_of_lucas_cert 409477 2 [(2, 2), (3, 1), (34123, 1)] (by norm_num) ?_ (by decide) (by decide) ?_
  · intro pair hmem
    simp only [List.mem_cons, List.not_mem_nil, or_false] at hmem
    rcases hmem with rfl|rfl|rfl
    · norm_num
    · norm_num
    · norm_num
  · intro pair hmem
    simp only [List.mem_cons, List.not_mem_nil, or_false] at hmem
    rcases hmem with rfl|rfl|rfl <;> decide

theorem prime_531581 : Nat.Prime 531581 := by
  refine prime_of_lucas_cert 531581 2 [(2, 2), (5, 1), (7, 1), (3797, 1)] (by norm_num) ?_ (by decide) (by decide) ?_
  · intro pair hmem
    simp only [List.mem_cons, List.not_mem_nil, or_false] at hmem
    rcases hmem with rfl|rfl|rfl|rfl
    · norm_num
    · norm_num
    · norm_num
    · norm_num
  · intro pair hmem
    simp only [List.mem_cons, List.not_mem_nil, or_false] at hmem
    rcases hmem with rfl|rfl|rfl|rfl <;> decide

theorem prime_1224481 : Nat.Prime 1224481 := by
  refine prime_of_lucas_cert 1224481 13 [(2, 5), (3, 1), (5, 1), (2551, 1)] (by norm_num) ?_ (by decide) (by decide) ?_
  · intro pair hmem
    simp only [List.mem_cons, List.not_mem_nil, or_false] at hmem
    rcases hmem with rfl|rfl|rfl|rfl
    · norm_num
    · norm_num
    · norm_num
    · norm_num
  · intro pair hmem
    simp only [List.mem_cons, List.not_mem_nil, or_false] at hmem
    rcases hmem with rfl|rfl|rfl|rfl <;> decide

theorem prime_1627771 : Nat.Prime 1627771 := by
  refine prime_of_lucas_cert 1627771 3 [(2, 1), (3, 1), (5, 1), (29, 1), (1871, 1)] (by norm_num) ?_ (by decide) (by decide) ?_
  · intro pair hmem
    simp only [List.mem_cons, List.not_mem_nil, or_false] at hmem
    rcases hmem with rfl|rfl|rfl|rfl|rfl
    · norm_num
    · norm_num
    · norm_num
    · norm_num
    · norm_num
  · intro pair hmem
    simp only [List.mem_cons, List.not_mem_nil, or_false] at hmem
    rcases hmem with rfl|rfl|rfl|rfl|rfl <;> decide

theorem prime_4681609 : Nat.Prime 4681609 := by
  refine prime_of_lucas_cert 4681609 23 [(2, 3), (3, 1), (97, 1), (2011, 1)] (by norm_num) ?_ (by decide) (by decide) ?_
  · intro pair hmem
    simp only [List.mem_cons, List.not_mem_nil, or_false] at hmem
    rcases hmem with rfl|rfl|rfl|rfl
    · norm_num
    · norm_num
    · norm_num
    · norm_num
  · intro pair hmem
    simp only [List.mem_cons, List.not_mem_nil, or_false] at hmem
    rcases hmem with rfl|rfl|rfl|rfl <;> decide

theorem prime_14741173 : Nat.Prime 14741173 := by
  refine prime_of_lucas_cert 14741173 2 [(2, 2), (3, 2), (409477, 1)] (by norm_num) ?_ (by decide) (by decide) ?_
  · intro pair hmem
    simp only [List.mem_cons, List.not_mem_nil, or_false] at hmem
    rcases hmem with rfl|rfl|rfl
    · norm_num
    · norm_num
    · exact prime_409477
  · intro pair hmem
    simp only [List.mem_cons, List.not_mem_nil, or_false] at hmem
    rcases hmem with rfl|rfl|rfl <;> decide

theorem prime_44706919 : Nat.Prime 44706919 := by
  refine prime_of_lucas_cert 44706919 6 [(2, 1), (3, 1), (797, 1), (9349, 1)] (by norm_num) ?_ (by decide) (by decide) ?_
  · intro pair hmem
    simp only [List.mem_cons, List.not_mem_nil, or_false] at hmem
    rcases hmem with rfl|rfl|rfl|rfl
    · norm_num
    · norm_num
    · norm_num
    · norm_num
  · intro pair hmem
    simp only [List.mem_cons, List.not_mem_nil, or_false] at hmem
    rcases hmem with rfl|rfl|rfl|rfl <;> decide

theorem prime_58964693 : Nat.Prime 58964693 := by
  refine prime_of_lucas_cert 58964693 2 [(2, 2), (14741173, 1)] (by norm_num) ?_ (by decide) (by decide) ?_
  · intro pair hmem
    simp only [List.mem_cons, List.not_mem_nil, or_false] at hmem
    rcases hmem with rfl|rfl
    · norm_num
    · exact prime_14741173
  · intro pair hmem
    simp only [List.mem_cons, List.not_mem_nil, or_false] at hmem
    rcases hmem with rfl|rfl <;> decide

theorem prime_292386187 : Nat.Prime 292386187 := by
  refine prime_of_lucas_cert 292386187 2 [(2, 1), (3, 4), (307, 1), (5879, 1)] (by norm_num) ?_ (by decide) (by decide) ?_
  · intro pair hmem
    simp only [List.mem_cons, List.not_mem_nil, or_false] at hmem
    rcases hmem with rfl|rfl|rfl|rfl
    · norm_num
    · norm_num
    · norm_num
    · norm_num
  · intro pair hmem
    simp only [List.mem_cons, List.not_mem_nil, or_false] at hmem
    rcases hmem with rfl|rfl|rfl|rfl <;> decide

theorem prime_545358713 : Nat.Prime 545358713 := by
  refine prime_of_lucas_cert 545358713 5 [(2, 3), (41, 1), (59, 1), (28181, 1)] (by norm_num) ?_ (by decide) (by decide) ?_
  · intro pair hmem
    simp only [List.mem_cons, List.not_mem_nil, or_false] at hmem
    rcases hmem with rfl|rfl|rfl|rfl
    · norm_num
    · norm_num
    · norm_num
    · norm_num
  · intro pair hmem
    simp only [List.mem_cons, List.not_mem_nil, or_false] at hmem
    rcases hmem with rfl|rfl|rfl|rfl <;> decide

theorem prime_213441916511 : Nat.Prime 213441916511 := by
  refine prime_of_lucas_cert 213441916511 13 [(2, 1), (5, 1), (73, 1), (292386187, 1)] (by norm_num) ?_ (by decide) (by decide) ?_
  · intro pair hmem
    simp only [List.mem_cons, List.not_mem_nil, or_false] at hmem
    rcases hmem with rfl|rfl|rfl|rfl
    · norm_num
    · norm_num
    · norm_num
    · exact prime_292386187
  · intro pair hmem
    simp only [List.mem_cons, List.not_mem_nil, or_false] at hmem
    rcases hmem with rfl|rfl|rfl|rfl <;> decide

theorem prime_297159362677 : Nat.Prime 297159362677 := by
  refine prime_of_lucas_cert 297159362677 2 [(2, 2), (3, 2), (11, 1), (461, 1), (1627771, 1)] (by norm_num) ?_ (by decide) (by decide) ?_
  · intro pair hmem
    simp only [List.mem_cons, List.not_mem_nil, or_false] at hmem
    rcases hmem with rfl|rfl|rfl|rfl|rfl
    · norm_num
    · norm_num
    · norm_num
    · norm_num
    · exact prime_1627771
  · intro pair hmem
    simp only [List.mem_cons, List.not_mem_nil, or_false] at hmem
    rcases hmem with rfl|rfl|rfl|rfl|rfl <;> decide

theorem prime_1257559732178653 : Nat.Prime 1257559732178653 := by
  refine prime_of_lucas_cert 1257559732178653 2 [(2, 2), (3, 1), (7, 1), (23, 1), (531581, 1), (1224481, 1)] (by norm_num) ?_ (by decide) (by decide) ?_
  · intro pair hmem
    simp only [List.mem_cons, List.not_mem_nil, or_false] at hmem
    rcases hmem with rfl|rfl|rfl|rfl|rfl|rfl
    · norm_num
    · norm_num
    · norm_num
    · norm_num
    · exact prime_531581
    · exact prime_1224481
  · intro pair hmem
    simp only [List.mem_cons, List.not_mem_nil, or_false] at hmem
    rcases hmem with rfl|rfl|rfl|rfl|rfl|rfl <;> decide

theorem prime_107361793816595537 : Nat.Prime 107361793816595537 := by
  refine prime_of_lucas_cert 107361793816595537 3 [(2, 4), (16699, 1), (85831, 1), (4681609, 1)] (by norm_num) ?_ (by decide) (by decide) ?_
  · intro pair hmem
    simp only [List.mem_cons, List.not_mem_nil, or_false] at hmem
    rcases hmem with rfl|rfl|rfl|rfl
    · norm_num
    · norm_num
    · norm_num
    · exact prime_4681609
  · intro pair hmem
    simp only [List.mem_cons, List.not_mem_nil, or_false] at hmem
    rcases hmem with rfl|rfl|rfl|rfl <;> decide

theorem prime_4434155615661930479 : Nat.Prime 4434155615661930479 := by
  refine prime_of_lucas_cert 4434155615661930479 17 [(2, 1), (41, 1), (43, 1), (1257559732178653, 1)] (by norm_num) ?_ (by decide) (by decide) ?_
  · intro pair hmem
    simp only [List.mem_cons, List.not_mem_nil, or_false] at hmem
    rcases hmem with rfl|rfl|rfl|rfl
    · norm_num
    · norm_num
    · norm_num
    · exact prime_1257559732178653
  · intro pair hmem
    simp only [List.mem_cons, List.not_mem_nil, or_false] at hmem
    rcases hmem with rfl|rfl|rfl|rfl <;> decide

theorem prime_174723607534414371449 : Nat.Prime 174723607534414371449 := by
  refine prime_of_lucas_cert 174723607534414371449 3 [(2, 3), (17, 1), (59, 1), (4051, 1), (120233, 1), (44706919, 1)] (by norm_num) ?_ (by decide) (by decide) ?_
  · intro pair hmem
    simp only [List.mem_cons, List.not_mem_nil, or_false] at hmem
    rcases hmem with rfl|rfl|rfl|rfl|rfl|rfl
    · norm_num
    · norm_num
    · norm_num
    · norm_num
    · exact prime_120233
    · exact prime_44706919
  · intro pair hmem
    simp only [List.mem_cons, List.not_mem_nil, or_false] at hmem
    rcases hmem with rfl|rfl|rfl|rfl|rfl|rfl <;> decide

theorem prime_3044861653679985063343 : Nat.Prime 3044861653679985063343 := by
  refine prime_of_lucas_cert 3044861653679985063343 5 [(2, 1), (3, 1), (11, 1), (30703, 1), (82163, 1), (132667, 1), (137849, 1)] (by norm_num) ?_ (by decide) (by decide) ?_
  · intro pair hmem
    simp only [List.mem_cons, List.not_mem_nil, or_false] at hmem
    rcases hmem with rfl|rfl|rfl|rfl|rfl|rfl|rfl
    · norm_num
    · norm_num
    · norm_num
    · norm_num
    · norm_num
    · exact prime_132667
    · exact prime_137849
  · intro pair hmem
    simp only [List.mem_cons, List.not_mem_nil, or_false] at hmem
    rcases hmem with rfl|rfl|rfl|rfl|rfl|rfl|rfl <;> decide

theorem prime_172054593956031949258510691 : Nat.Prime 172054593956031949258510691 := by
  refine prime_of_lucas_cert 172054593956031949258510691 2 [(2, 1), (5, 1), (1361, 1), (2851, 1), (4434155615661930479, 1)] (by norm_num) ?_ (by decide) (by decide) ?_
  · intro pair hmem
    simp only [List.mem_cons, List.not_mem_nil, or_false] at hmem
    rcases hmem with rfl|rfl|rfl|rfl|rfl
    · norm_num
    · norm_num
    · norm_num
    · norm_num
    · exact prime_4434155615661930479
  · intro pair hmem
    simp only [List.mem_cons, List.not_mem_nil, or_false] at hmem
    rcases hmem with rfl|rfl|rfl|rfl|rfl <;> decide

theorem prime_29047611873442575647497758179 : Nat.Prime 29047611873442575647497758179 := by
  refine prime_of_lucas_cert 29047611873442575647497758179 2 [(2, 1), (293, 1), (305873, 1), (545358713, 1), (297159362677, 1)] (by norm_num) ?_ (by decide) (by decide) ?_
  · intro pair hmem
    simp only [List.mem_cons, List.not_mem_nil, or_false] at hmem
    rcases hmem with rfl|rfl|rfl|rfl|rfl
    · norm_num
    · norm_num
    · exact prime_305873
    · exact prime_545358713
    · exact prime_297159362677
  · intro pair hmem
    simp only [List.mem_cons, List.not_mem_nil, or_false] at hmem
    rcases hmem with rfl|rfl|rfl|rfl|rfl <;> decide

theorem prime_198211423230930754013084525763697 : Nat.Prime 198211423230930754013084525763697 := by
  refine prime_of_lucas_cert 198211423230930754013084525763697 5 [(2, 4), (3, 1), (23, 1), (58964693, 1), (3044861653679985063343, 1)] (by norm_num) ?_ (by decide) (by decide) ?_
  · intro pair hmem
    simp only [List.mem_cons, List.not_mem_nil, or_false] at hmem
    rcases hmem with rfl|rfl|rfl|rfl|rfl
    · norm_num
    · norm_num
    · norm_num
    · exact prime_58964693
    · exact prime_3044861653679985063343
  · intro pair hmem
    simp only [List.mem_cons, List.not_mem_nil, or_false] at hmem
    rcases hmem with rfl|rfl|rfl|rfl|rfl <;> decide

theorem prime_341948486974166000522343609283189 : Nat.Prime 341948486974166000522343609283189 := by
  refine prime_of_lucas_cert 341948486974166000522343609283189 2 [(2, 2), (3, 3), (109, 1), (29047611873442575647497758179, 1)] (by norm_num) ?_ (by decide) (by decide) ?_
  · intro pair hmem
    simp only [List.mem_cons, List.not_mem_nil, or_false] at hmem
    rcases hmem with rfl|rfl|rfl|rfl
    · norm_num
    · norm_num
    · norm_num
    · exact prime_29047611873442575647497758179
  · intro pair hmem
    simp only [List.mem_cons, List.not_mem_nil, or_false] at hmem
    rcases hmem with rfl|rfl|rfl|rfl <;> decide

theorem prime_19757330305831588566944191468367130476339 : Nat.Prime 19757330305831588566944191468367130476339 := by
  refine prime_of_lucas_cert 19757330305831588566944191468367130476339 2 [(2, 1), (269, 1), (213441916511, 1), (172054593956031949258510691, 1)] (by norm_num) ?_ (by decide) (by decide) ?_
  · intro pair hmem
    simp only [List.mem_cons, List.not_mem_nil, or_false] at hmem
    rcases hmem with rfl|rfl|rfl|rfl
    · norm_num
    · norm_num
    · exact prime_213441916511
    · exact prime_172054593956031949258510691
  · intro pair hmem
    simp only [List.mem_cons, List.not_mem_nil, or_false] at hmem
    rcases hmem with rfl|rfl|rfl|rfl <;> decide

theorem prime_276602624281642239937218680557139826668747 : Nat.Prime 276602624281642239937218680557139826668747 := by
  refine prime_of_lucas_cert 276602624281642239937218680557139826668747 2 [(2, 1), (7, 1), (19757330305831588566944191468367130476339, 1)] (by norm_num) ?_ (by decide) (by decide) ?_
  · intro pair hmem
    simp only [List.mem_cons, List.not_mem_nil, or_false] at hmem
    rcases hmem with rfl|rfl|rfl
    · norm_num
    · norm_num
    · exact prime_19757330305831588566944191468367130476339
  · intro pair hmem
    simp only [List.mem_cons, List.not_mem_nil, or_false] at hmem
    rcases hmem with rfl|rfl|rfl <;> decide

theorem prime_7237005577332262213973186563042994240857116359379907606001950938285454250989 : Nat.Prime 7237005577332262213973186563042994240857116359379907606001950938285454250989 := by
  refine prime_of_lucas_cert 7237005577332262213973186563042994240857116359379907606001950938285454250989 2 [(2, 2), (3, 1), (11, 1), (198211423230930754013084525763697, 1), (276602624281642239937218680557139826668747, 1)] (by norm_num) ?_ (by decide) (by decide) ?_
  · intro pair hmem
    simp only [List.mem_cons, List.not_mem_nil, or_false] at hmem
    rcases hmem with rfl|rfl|rfl|rfl|rfl
    · norm_num
    · norm_num
    · norm_num
    · exact prime_198211423230930754013084525763697
    · exact prime_276602624281642239937218680557139826668747
  · intro pair hmem
    simp only [List.mem_cons, List.not_mem_nil, or_false] at hmem
    rcases hmem with rfl|rfl|rfl|rfl|rfl <;> decide

theorem prime_115792089237316195423570985008687907852837564279074904382605163141518161494337 : Nat.Prime 115792089237316195423570985008687907852837564279074904382605163141518161494337 := by
  refine prime_of_lucas_cert 115792089237316195423570985008687907852837564279074904382605163141518161494337 7 [(2, 6), (3, 1), (149, 1), (631, 1), (107361793816595537, 1), (174723607534414371449, 1), (341948486974166000522343609283189, 1)] (by norm_num) ?_ (by decide) (by decide) ?_
  · intro pair hmem
    simp only [List.mem_cons, List.not_mem_nil, or_false] at hmem
    rcases hmem with rfl|rfl|rfl|rfl|rfl|rfl|rfl
    · norm_num
    · norm_num
    · norm_num
    · norm_num
    · exact prime_107361793816595537
    · exact prime_174723607534414371449
    · exact prime_341948486974166000522343609283189
  · intro pair hmem
    simp only [List.mem_cons, List.not_mem_nil, or_false] at hmem
    rcases hmem with rfl|rfl|rfl|rfl|rfl|rfl|rfl <;> decide

theorem ed25519OrderPrime : Nat.Prime EddsaAttacker.CURVE_ORDER :=
  prime_7237005577332262213973186563042994240857116359379907606001950938285454250989

theorem secp256k1OrderPrime : Nat.Prime FlawedSigner.CURVE_ORDER :=
  prime_115792089237316195423570985008687907852837564279074904382605163141518161494337

theorem egcd_spec : ∀ fuel a b, b ≤ fuel →
    (egcd fuel a b).1 = Nat.gcd a b ∧
    ((egcd fuel a b).1 : Int) = (egcd fuel a b).2.1 * a + (egcd fuel a b).2.2 * b := by
  intro fuel
  induction fuel with
  | zero =>
    intro a b hb
    have h0 : b = 0 := by omega
    subst h0
    simp [egcd]
  | succ fuel ih =>
    intro a b hb
    match b with
    | 0 => simp [egcd]
    | b + 1 =>
      have hble : a % (b + 1) ≤ fuel := by
        have := Nat.mod_lt a (show 0 < b + 1 by omega)
        omega
      obtain ⟨hg, hxy⟩ := ih (b + 1) (a % (b + 1)) hble
      have hgcd : Nat.gcd a (b + 1) = Nat.gcd (b + 1) (a % (b + 1)) := by
        rw [Nat.gcd_comm a (b + 1), Nat.gcd_rec (b + 1) a, Nat.gcd_comm]
      have hmod : ((a % (b + 1) : Nat) : Int) =
          (a : Int) - ((b + 1 : Nat) : Int) * ((a / (b + 1) : Nat) : Int) := by
        have h := congrArg (Nat.cast : Nat → Int) (Nat.div_add_mod a (b + 1))
        push_cast at h ⊢
        linarith
      constructor
      · simp only [egcd]
        rw [hg, hgcd]
      · simp only [egcd]
        rw [hxy, hmod]
        push_cast
        ring

theorem pyInvMod_spec (x n : Int) (hx : 0 < x) (hn : 0 < n) (h : Int.gcd x n = 1) :
    ∃ v, pyInvMod x n = some v ∧ x * v ≡ 1 [ZMOD n] := by
  refine ⟨_, by rw [pyInvMod, if_pos h], ?_⟩
  have hx1 : ((x.natAbs : Int)) = x := Int.natAbs_of_nonneg hx.le
  have hn1 : ((n.natAbs : Int)) = n := Int.natAbs_of_nonneg hn.le
  have hsign : Int.sign x = 1 := Int.sign_eq_one_of_pos hx
  obtain ⟨hg, hxy⟩ := egcd_spec n.natAbs x.natAbs n.natAbs le_rfl
  have hg1 : Nat.gcd x.natAbs n.natAbs = 1 := h
  rw [hg, hg1, Nat.cast_one, hx1, hn1] at hxy
  set X := (egcd n.natAbs x.natAbs n.natAbs).2.1 with hX
  set Y := (egcd n.natAbs x.natAbs n.natAbs).2.2 with hY
  have hmain : x * X ≡ 1 [ZMOD n] := Int.modEq_iff_dvd.mpr ⟨Y, by linarith⟩
  calc x * (Int.sign x * X % n)
      ≡ x * (Int.sign x * X) [ZMOD n] := (Int.mod_modEq _ _).mul_left x
    _ = x * X := by rw [hsign, one_mul]
    _ ≡ 1 [ZMOD n] := hmain

/-- A nonzero residue is coprime to a prime modulus. -/
theorem int_gcd_eq_one_of_prime {p : Nat} (hp : p.Prime) {x : Int}
    (hx : x % (p : Int) ≠ 0) : Int.gcd x (p : Int) = 1 := by
  have hnd : ¬((p : Int) ∣ x) := fun hdvd => hx (Int.emod_eq_zero_of_dvd hdvd)
  have hnd2 : ¬(p ∣ x.natAbs) := by
    intro hd
    apply hnd
    have h2 : ((p : Int)).natAbs ∣ x.natAbs := by simpa using hd
    exact Int.natAbs_dvd_natAbs.mp h2
  have hco : Nat.Coprime p x.natAbs := (Nat.Prime.coprime_iff_not_dvd hp).mpr hnd2
  show Nat.gcd x.natAbs ((p : Int)).natAbs = 1
  rw [Int.natAbs_ofNat]
  exact hco.symm

namespace FlawedEdDSASigner

/-- Signing from congruent start nonces produces identical records: every
field the loop emits is reduced mod `n` before use. -/
theorem signAffineGo_congr (sha512 : List Nat → List Nat) (signer : Signer) (a b : Int) :
    ∀ (ms : List (List Nat)) (c1 c2 : Int),
      c1 ≡ c2 [ZMOD (CURVE_ORDER : Int)] →
      signAffineGo sha512 signer a b c1 ms = signAffineGo sha512 signer a b c2 ms := by
  intro ms
  induction ms with
  | nil => intro c1 c2 _; rfl
  | cons m rest ih =>
    intro c1 c2 h
    have hr : c1 % (CURVE_ORDER : Int) = c2 % (CURVE_ORDER : Int) := h
    have hs : ∀ H : Int,
        (c1 + H) % (CURVE_ORDER : Int) = (c2 + H) % (CURVE_ORDER : Int) :=
      fun H => (h.add_right H).eq
    have hnext : (a * c1 + b) % (CURVE_ORDER : Int) ≡ (a * c2 + b) % (CURVE_ORDER : Int)
        [ZMOD (CURVE_ORDER : Int)] :=
      (Int.mod_modEq _ _).trans (((h.mul_left a).add_right b).trans (Int.mod_modEq _ _).symm)
    simp only [signAffineGo]
    rw [hr, hs, ih _ _ hnext]

/-- The closed-form nonce `(start + i*step) % n` of `signStepGo` agrees
with iterating `nonce := (1*nonce + step) % n` from any congruent state. -/
theorem signStepGo_eq_affine (sha512 : List Nat → List Nat) (signer : Signer)
    (step start_nonce : Int) :
    ∀ (ms : List (List Nat)) (i : Nat) (cur : Int),
      cur ≡ start_nonce + (i : Int) * step [ZMOD (CURVE_ORDER : Int)] →
      signAffineGo sha512 signer 1 step cur ms =
        signStepGo sha512 signer step start_nonce i ms := by
  intro ms
  induction ms with
  | nil => intro i cur _; rfl
  | cons m rest ih =>
    intro i cur h
    have hr : cur % (CURVE_ORDER : Int) =
        (start_nonce + (i : Int) * step) % (CURVE_ORDER : Int) % (CURVE_ORDER : Int) :=
      h.eq.trans (Int.emod_emod_of_dvd _ dvd_rfl).symm
    have hcur : cur ≡ (start_nonce + (i : Int) * step) % (CURVE_ORDER : Int)
        [ZMOD (CURVE_ORDER : Int)] :=
      h.trans (Int.mod_modEq _ _).symm
    have hs : ∀ H : Int,
        (cur + H) % (CURVE_ORDER : Int) =
          ((start_nonce + (i : Int) * step) % (CURVE_ORDER : Int) + H) % (CURVE_ORDER : Int) :=
      fun H => (hcur.add_right H).eq
    have hnext : (1 * cur + step) % (CURVE_ORDER : Int) ≡
        start_nonce + ((i + 1 : Nat) : Int) * step [ZMOD (CURVE_ORDER : Int)] := by
      calc (1 * cur + step) % (CURVE_ORDER : Int)
          ≡ 1 * cur + step [ZMOD (CURVE_ORDER : Int)] := Int.mod_modEq _ _
        _ ≡ 1 * (start_nonce + (i : Int) * step) + step [ZMOD (CURVE_ORDER : Int)] :=
            (h.mul_left 1).add_right step
        _ = start_nonce + ((i + 1 : Nat) : Int) * step := by push_cast; ring
    simp only [signAffineGo, signStepGo]
    rw [hr, hs, ih (i + 1) _ hnext]

end FlawedEdDSASigner

namespace FlawedSigner

/-- Every record the ECDSA-style affine signing loop emits carries
`z = hash_message(message)`: the challenge is computed from the message
alone, with no dependence on the nonce state, the curve oracle or the
private key. -/
theorem z_of_mem_signAffineGo (sha256 : List Nat → List Nat) (pointX : Int → Option Int)
    (priv a b : Int) :
    ∀ (ms : List (List Nat)) (i : Nat) (cur : Int) (recs : List SigRecord),
      signAffineGo sha256 pointX priv a b i cur ms = .ok recs →
      ∀ rec ∈ recs, rec.z = hash_message sha256 rec.message := by
  intro ms
  induction ms with
  | nil =>
    intro i cur recs h rec hrec
    simp only [signAffineGo] at h
    injection h with h2
    subst h2
    exact absurd hrec (List.not_mem_nil rec)
  | cons m rest ih =>
    intro i cur recs h rec hrec
    simp only [signAffineGo] at h
    cases hpx : pointX cur with
    | none => rw [hpx] at h; exact Except.noConfusion h
    | some x =>
      rw [hpx] at h
      cases hinv : pyInvMod cur (CURVE_ORDER : Int) with
      | none => rw [hinv] at h; exact Except.noConfusion h
      | some kinv =>
        rw [hinv] at h
        dsimp only at h
        by_cases hval : isValidUtf8 m = true
        · rw [if_pos hval] at h
          cases hrest : signAffineGo sha256 pointX priv a b (i + 1)
              ((a * cur + b) % (CURVE_ORDER : Int)) rest with
          | error e => rw [hrest] at h; exact Except.noConfusion h
          | ok recs0 =>
            rw [hrest] at h
            injection h with h2
            subst h2
            rcases List.mem_cons.mp hrec with him | hmem
            · subst him; rfl
            · exact ih (i + 1) _ recs0 hrest rec hmem
        · rw [if_neg hval] at h
          exact Except.noConfusion h

end FlawedSigner

namespace FlawedSigner

/-- When every consumed nonce is nonzero mod the (prime) order and every
message decodes as UTF-8, the affine signing loop completes with one
record per message — in particular an `r ≡ 0` outcome alone never aborts
it. -/
theorem signAffineGo_ok (sha256 : List Nat → List Nat) (pointX : Int → Option Int)
    (priv a b : Int)
    (hpx : ∀ k, pointX k = none ↔ k % (CURVE_ORDER : Int) = 0) :
    ∀ (ms : List (List Nat)) (i : Nat) (cur : Int),
      (∀ j mj, ms.get? j = some mj →
        nonceAt a b cur j % (CURVE_ORDER : Int) ≠ 0 ∧ isValidUtf8 mj = true) →
      ∃ recs, signAffineGo sha256 pointX priv a b i cur ms = .ok recs ∧
        recs.length = ms.length := by
  intro ms
  induction ms with
  | nil => intro i cur _; exact ⟨[], rfl, rfl⟩
  | cons m rest ih =>
    intro i cur hnz
    obtain ⟨h0, hval⟩ := hnz 0 m rfl
    have h0c : cur % (CURVE_ORDER : Int) ≠ 0 := h0
    cases hpx0 : pointX cur with
    | none => exact absurd ((hpx cur).mp hpx0) h0c
    | some x =>
      have hgcd : Int.gcd cur (CURVE_ORDER : Int) = 1 :=
        int_gcd_eq_one_of_prime secp256k1OrderPrime h0c
      have hinv : pyInvMod cur (CURVE_ORDER : Int) =
          some (Int.sign cur *
            (egcd ((CURVE_ORDER : Int)).natAbs cur.natAbs ((CURVE_ORDER : Int)).natAbs).2.1 %
              (CURVE_ORDER : Int)) := by
        rw [pyInvMod, if_pos hgcd]
      obtain ⟨recs0, hrecs0, hlen⟩ := ih (i + 1) ((a * cur + b) % (CURVE_ORDER : Int))
        (fun j mj hget => hnz (j + 1) mj hget)
      refine ⟨SigRecord.mk m (hash_message sha256 m) (x % (CURVE_ORDER : Int))
          (Int.sign cur *
              (egcd ((CURVE_ORDER : Int)).natAbs cur.natAbs ((CURVE_ORDER : Int)).natAbs).2.1 %
              (CURVE_ORDER : Int) *
            (hash_message sha256 m + x % (CURVE_ORDER : Int) * priv) % (CURVE_ORDER : Int))
          i :: recs0, ?_, by simp [hlen]⟩
      simp only [signAffineGo, hpx0, hinv]
      rw [if_pos hval, hrecs0]

/-- If every stage before index `j` succeeds (nonzero nonce, decodable
message) and the nonce consumed at `j` is zero mod the order, the whole
call raises the missing-x-coordinate error, returning no records and
retrying nothing. -/
theorem signAffineGo_zero_nonce (sha256 : List Nat → List Nat) (pointX : Int → Option Int)
    (priv a b : Int)
    (hpx : ∀ k, pointX k = none ↔ k % (CURVE_ORDER : Int) = 0) :
    ∀ (ms : List (List Nat)) (i : Nat) (cur : Int) (j : Nat), j < ms.length →
      (∀ k mk, k < j → ms.get? k = some mk →
        nonceAt a b cur k % (CURVE_ORDER : Int) ≠ 0 ∧ isValidUtf8 mk = true) →
      nonceAt a b cur j % (CURVE_ORDER : Int) = 0 →
      signAffineGo sha256 pointX priv a b i cur ms = .error PyError.typeError := by
  intro ms
  induction ms with
  | nil => intro i cur j hj _ _; exact absurd hj (by simp)
  | cons m rest ih =>
    intro i cur j hj hk h0
    cases j with
    | zero =>
      have hc : cur % (CURVE_ORDER : Int) = 0 := h0
      have hnone : pointX cur = none := (hpx cur).mpr hc
      simp only [signAffineGo, hnone]
    | succ j =>
      obtain ⟨hcur, hvalm⟩ := hk 0 m (Nat.succ_pos j) rfl
      have hcurc : cur % (CURVE_ORDER : Int) ≠ 0 := hcur
      cases hpx0 : pointX cur with
      | none => exact absurd ((hpx cur).mp hpx0) hcurc
      | some x =>
        have hgcd : Int.gcd cur (CURVE_ORDER : Int) = 1 :=
          int_gcd_eq_one_of_prime secp256k1OrderPrime hcurc
        have hinv : pyInvMod cur (CURVE_ORDER : Int) =
            some (Int.sign cur *
              (egcd ((CURVE_ORDER : Int)).natAbs cur.natAbs ((CURVE_ORDER : Int)).natAbs).2.1 %
                (CURVE_ORDER : Int)) := by
          rw [pyInvMod, if_pos hgcd]
        have hrec := ih (i + 1) ((a * cur + b) % (CURVE_ORDER : Int)) j
          (by simpa using Nat.lt_of_succ_lt_succ hj)
          (fun k mk hkk hget => hk (k + 1) mk (Nat.succ_lt_succ hkk) hget) h0
        simp only [signAffineGo, hpx0, hinv]
        rw [if_pos hvalm, hrec]

/-- If every stage before index `j` succeeds, the nonce at `j` is
nonzero, but the message at `j` does not decode as UTF-8, the whole call
raises `UnicodeDecodeError` while appending the record — after the point
and inverse computations went through. -/
theorem signAffineGo_bad_decode (sha256 : List Nat → List Nat) (pointX : Int → Option Int)
    (priv a b : Int)
    (hpx : ∀ k, pointX k = none ↔ k % (CURVE_ORDER : Int) = 0) :
    ∀ (ms : List (List Nat)) (i : Nat) (cur : Int) (j : Nat) (mj : List Nat),
      ms.get? j = some mj →
      (∀ k mk, k < j → ms.get? k = some mk →
        nonceAt a b cur k % (CURVE_ORDER : Int) ≠ 0 ∧ isValidUtf8 mk = true) →
      nonceAt a b cur j % (CURVE_ORDER : Int) ≠ 0 →
      isValidUtf8 mj = false →
      signAffineGo sha256 pointX priv a b i cur ms = .error PyError.unicodeDecodeError := by
  intro ms
  induction ms with
  | nil => intro i cur j mj hget _ _ _; exact Option.noConfusion hget
  | cons m rest ih =>
    intro i cur j mj hget hk hnz hbad
    cases j with
    | zero =>
      have hmj : m = mj := by injection hget
      subst hmj
      have hcurc : cur % (CURVE_ORDER : Int) ≠ 0 := hnz
      cases hpx0 : pointX cur with
      | none => exact absurd ((hpx cur).mp hpx0) hcurc
      | some x =>
        have hgcd : Int.gcd cur (CURVE_ORDER : Int) = 1 :=
          int_gcd_eq_one_of_prime secp256k1OrderPrime hcurc
        have hinv : pyInvMod cur (CURVE_ORDER : Int) =
            some (Int.sign cur *
              (egcd ((CURVE_ORDER : Int)).natAbs cur.natAbs ((CURVE_ORDER : Int)).natAbs).2.1 %
                (CURVE_ORDER : Int)) := by
          rw [pyInvMod, if_pos hgcd]
        simp only [signAffineGo, hpx0, hinv]
        rw [if_neg (by simp [hbad])]
    | succ j =>
      obtain ⟨hcur, hvalm⟩ := hk 0 m (Nat.succ_pos j) rfl
      have hcurc : cur % (CURVE_ORDER : Int) ≠ 0 := hcur
      cases hpx0 : pointX cur with
      | none => exact absurd ((hpx cur).mp hpx0) hcurc
      | some x =>
        have hgcd : Int.gcd cur (CURVE_ORDER : Int) = 1 :=
          int_gcd_eq_one_of_prime secp256k1OrderPrime hcurc
        have hinv : pyInvMod cur (CURVE_ORDER : Int) =
            some (Int.sign cur *
              (egcd ((CURVE_ORDER : Int)).natAbs cur.natAbs ((CURVE_ORDER : Int)).natAbs).2.1 %
                (CURVE_ORDER : Int)) := by
          rw [pyInvMod, if_pos hgcd]
        have hrec := ih (i + 1) ((a * cur + b) % (CURVE_ORDER : Int)) j mj hget
          (fun k mk hkk hget2 => hk (k + 1) mk (Nat.succ_lt_succ hkk) hget2) hnz hbad
        simp only [signAffineGo, hpx0, hinv]
        rw [if_pos hvalm, hrec]

end FlawedSigner

/-- The modular linear algebra of the recovery equation: feeding the two
EdDSA-style signature values `s1 = (start + h1*A) % q` and
`s2 = ((alpha*start + beta) % q + h2*A) % q` through
`(s2 - alpha*s1 - beta) % q * inv % q` returns `A % q` whenever `inv`
inverts the reduced denominator `(h2 - alpha*h1) % q`. -/
theorem recover_algebra (q alpha beta start A h1 h2 v : Int)
    (hv : (h2 - alpha * h1) % q * v ≡ 1 [ZMOD q]) :
    (((alpha * start + beta) % q + h2 * A) % q - alpha * ((start + h1 * A) % q) - beta) % q *
        v % q = A % q := by
  have H1 : ((alpha * start + beta) % q + h2 * A) % q - alpha * ((start + h1 * A) % q) - beta
      ≡ A * (h2 - alpha * h1) [ZMOD q] := by
    calc ((alpha * start + beta) % q + h2 * A) % q - alpha * ((start + h1 * A) % q) - beta
        ≡ ((alpha * start + beta) % q + h2 * A) - alpha * (start + h1 * A) - beta [ZMOD q] :=
          ((Int.mod_modEq _ _).sub ((Int.mod_modEq _ _).mul_left alpha)).sub
            (Int.ModEq.refl beta)
      _ ≡ alpha * start + beta + h2 * A - alpha * (start + h1 * A) - beta [ZMOD q] :=
          (((Int.mod_modEq _ _).add_right _).sub (Int.ModEq.refl _)).sub (Int.ModEq.refl beta)
      _ = A * (h2 - alpha * h1) := by ring
  have H2 : (((alpha * start + beta) % q + h2 * A) % q - alpha * ((start + h1 * A) % q) - beta)
      % q * v ≡ A [ZMOD q] := by
    calc (((alpha * start + beta) % q + h2 * A) % q - alpha * ((start + h1 * A) % q) - beta)
          % q * v
        ≡ (((alpha * start + beta) % q + h2 * A) % q - alpha * ((start + h1 * A) % q) - beta)
            * v [ZMOD q] := (Int.mod_modEq _ _).mul_right v
      _ ≡ A * (h2 - alpha * h1) * v [ZMOD q] := H1.mul_right v
      _ = A * ((h2 - alpha * h1) * v) := by ring
      _ ≡ A * ((h2 - alpha * h1) % q * v) [ZMOD q] :=
          Int.ModEq.mul_left A (Int.ModEq.mul_right v (Int.mod_modEq _ _).symm)
      _ ≡ A * 1 [ZMOD q] := Int.ModEq.mul_left A hv
      _ = A := mul_one A
  exact H2

/-- On equal public keys and a nonzero denominator, `attack` takes the
recovery branch: some inverse `v` of the denominator exists and the
result is `(s2 - alpha*s1 - beta) % q * v % q`. -/
theorem attack_recovers (sha512 : List Nat → List Nat) (pk m1 m2 : List Nat)
    (r1 s1 r2 s2 alpha beta : Int)
    (hden : attackDenominator sha512 r1 r2 alpha pk m1 m2 ≠ 0) :
    ∃ v, attackDenominator sha512 r1 r2 alpha pk m1 m2 * v ≡ 1
        [ZMOD (EddsaAttacker.CURVE_ORDER : Int)] ∧
      EddsaAttacker.attack sha512 (r1, s1, pk, m1) (r2, s2, pk, m2) alpha beta =
        EddsaAttacker.AttackResult.recovered
          ((s2 - alpha * s1 - beta) % (EddsaAttacker.CURVE_ORDER : Int) * v %
            (EddsaAttacker.CURVE_ORDER : Int)) := by
  have hqpos : (0 : Int) < (EddsaAttacker.CURVE_ORDER : Int) := by
    exact_mod_cast ed25519OrderPrime.pos
  have hDpos : 0 < attackDenominator sha512 r1 r2 alpha pk m1 m2 :=
    lt_of_le_of_ne (Int.emod_nonneg _ hqpos.ne') (Ne.symm hden)
  have hDne : attackDenominator sha512 r1 r2 alpha pk m1 m2 %
      (EddsaAttacker.CURVE_ORDER : Int) ≠ 0 := by
    have he : attackDenominator sha512 r1 r2 alpha pk m1 m2 %
        (EddsaAttacker.CURVE_ORDER : Int) =
        attackDenominator sha512 r1 r2 alpha pk m1 m2 :=
      Int.emod_emod_of_dvd _ dvd_rfl
    rw [he]
    exact hden
  have hgcd := int_gcd_eq_one_of_prime ed25519OrderPrime hDne
  obtain ⟨v, hv, hvm⟩ := pyInvMod_spec _ _ hDpos hqpos hgcd
  refine ⟨v, hvm, ?_⟩
  have hpk : ¬pk ≠ pk := by simp
  have hfold : (EddsaAttacker.compute_h sha512 r2 pk m2 -
      alpha * EddsaAttacker.compute_h sha512 r1 pk m1) %
        (EddsaAttacker.CURVE_ORDER : Int) =
      attackDenominator sha512 r1 r2 alpha pk m1 m2 := rfl
  simp only [EddsaAttacker.attack, hfold]
  rw [if_neg hpk, if_neg hden]
  simp only [hv]

/-- **C1**: the round trip.  For any hash oracle, signer state, two
distinct messages, coefficients and start nonce, feeding the two records
produced by `sign_with_affine_nonces` into `attack` with the same
`(alpha, beta)` recovers exactly the signing scalar — the private-key
bytes decoded little-endian and reduced mod the curve order — provided
the resulting challenges satisfy `h2 - alpha*h1 ≢ 0 (mod n)`. -/
theorem claim_C1_affine_roundtrip (sha512 : List Nat → List Nat)
    (signer : FlawedEdDSASigner.Signer) (m1 m2 : List Nat)
    (alpha beta start_nonce : Int) (rec1 rec2 : FlawedEdDSASigner.SigRecord)
    (hm : m1 ≠ m2)
    (hsig : FlawedEdDSASigner.sign_with_affine_nonces sha512 signer [m1, m2]
        alpha beta start_nonce = [rec1, rec2])
    (hden : attackDenominator sha512 rec1.r rec2.r alpha rec1.public_key
        rec1.message rec2.message ≠ 0) :
    EddsaAttacker.attack sha512 (rec1.r, rec1.s, rec1.public_key, rec1.message)
        (rec2.r, rec2.s, rec2.public_key, rec2.message) alpha beta =
      EddsaAttacker.AttackResult.recovered (FlawedEdDSASigner.privateScalar signer) := by
  simp only [FlawedEdDSASigner.sign_with_affine_nonces, FlawedEdDSASigner.signAffineGo]
    at hsig
  injection hsig with h1 htl
  injection htl with h2 _
  subst h1
  subst h2
  dsimp only at hden ⊢
  have hCO : FlawedEdDSASigner.CURVE_ORDER = EddsaAttacker.CURVE_ORDER := rfl
  simp only [hCO] at hden ⊢
  obtain ⟨v, hvm, hatk⟩ := attack_recovers sha512 signer.public_key m1 m2 _ _ _ _
    alpha beta hden
  rw [hatk]
  refine congrArg _ ?_
  have hch : ∀ (r : Int) (m : List Nat),
      EddsaAttacker.compute_h sha512 r signer.public_key m =
        FlawedEdDSASigner.compute_h sha512 (pyToBytesLE 32 r.toNat) signer.public_key m :=
    fun _ _ => rfl
  simp only [attackDenominator, hch] at hvm
  have halg := recover_algebra (EddsaAttacker.CURVE_ORDER : Int) alpha beta start_nonce
    (FlawedEdDSASigner.privateScalar signer) _ _ v hvm
  refine halg.trans ?_
  exact Int.emod_emod_of_dvd _ dvd_rfl

theorem claim_C1_affine_roundtrip_witness :
    EddsaAttacker.attack (fun d => [d.length % 256]) (10, 112, [7], [1])
        (25, 130, [7], [1, 2]) 2 5 =
      EddsaAttacker.AttackResult.recovered
        (FlawedEdDSASigner.privateScalar { private_key := [3], public_key := [7] }) :=
  claim_C1_affine_roundtrip (fun d => [d.length % 256])
    { private_key := [3], public_key := [7] } [1] [1, 2] 2 5 10
    { message := [1], r := 10, s := 112, public_key := [7] }
    { message := [1, 2], r := 25, s := 130, public_key := [7] }
    (by decide) (by decide) (by decide)

/-- **C2**: for two signatures carrying the same public key, `attack`
returns the `None` sentinel whenever the denominator
`(h2 - alpha*h1) % n` vanishes, and a recovered scalar can only arise
when that denominator is nonzero. -/
theorem claim_C2_degenerate_denominator (sha512 : List Nat → List Nat)
    (r1 s1 r2 s2 alpha beta : Int) (pk m1 m2 : List Nat) :
    (attackDenominator sha512 r1 r2 alpha pk m1 m2 = 0 →
      EddsaAttacker.attack sha512 (r1, s1, pk, m1) (r2, s2, pk, m2) alpha beta =
        EddsaAttacker.AttackResult.indeterminate) ∧
    (∀ key, EddsaAttacker.attack sha512 (r1, s1, pk, m1) (r2, s2, pk, m2) alpha beta =
        EddsaAttacker.AttackResult.recovered key →
      attackDenominator sha512 r1 r2 alpha pk m1 m2 ≠ 0) := by
  have hpk : ¬pk ≠ pk := by simp
  constructor
  · intro hd
    simp only [attackDenominator] at hd
    simp only [EddsaAttacker.attack, if_neg hpk]
    rw [if_pos hd]
  · intro key h hd
    simp only [attackDenominator] at hd
    simp only [EddsaAttacker.attack, if_neg hpk] at h
    rw [if_pos hd] at h
    exact EddsaAttacker.AttackResult.noConfusion h

theorem claim_C2_degenerate_denominator_witness :
    EddsaAttacker.attack (fun _ => []) (0, 0, [5], []) (0, 0, [5], []) 1 0 =
      EddsaAttacker.AttackResult.indeterminate :=
  (claim_C2_degenerate_denominator (fun _ => []) 0 0 0 0 1 0 [5] [] []).1 (by decide)

/-- **C3**: feeding `attack` two signatures whose `public_key` fields
differ always yields the `MismatchedKeys` failure — for every hash
function, every signature component and every `(alpha, beta)`, so the
result depends on none of the arithmetic inputs and no challenge,
numerator, denominator or inverse computation can influence it. -/
theorem claim_C3_mismatched_keys (sha512 : List Nat → List Nat)
    (r1 s1 r2 s2 alpha beta : Int) (pk1 m1 pk2 m2 : List Nat)
    (hpk : pk1 ≠ pk2) :
    EddsaAttacker.attack sha512 (r1, s1, pk1, m1) (r2, s2, pk2, m2) alpha beta =
      EddsaAttacker.AttackResult.mismatchedKeys := by
  simp [EddsaAttacker.attack, hpk]

theorem claim_C3_mismatched_keys_witness :
    EddsaAttacker.attack (fun _ => []) (0, 0, [0], []) (0, 0, [1], []) 0 0 =
      EddsaAttacker.AttackResult.mismatchedKeys :=
  claim_C3_mismatched_keys (fun _ => []) 0 0 0 0 0 0 [0] [] [1] [] (by decide)

/-- **C4**: for every nonce representation `r` in the domain where
`r.to_bytes(32, "little")` is defined, the attacker's challenge is
SHA-512 of `r` as 32 little-endian bytes, then the public key, then the
message, decoded little-endian and reduced mod the Ed25519 order — the
spec's transform verbatim — and the attacker's `compute_h` agrees with
the signer's `compute_h` fed the same 32-byte encoding. -/
theorem claim_C4_eddsa_challenge (sha512 : List Nat → List Nat) (r : Int)
    (pk m : List Nat) (h0 : 0 ≤ r) (h256 : r < 2 ^ 256) :
    EddsaAttacker.compute_h sha512 r pk m = specEddsaChallenge sha512 r pk m ∧
    EddsaAttacker.compute_h sha512 r pk m =
      FlawedEdDSASigner.compute_h sha512 (pyToBytesLE 32 r.toNat) pk m :=
  ⟨rfl, rfl⟩

theorem claim_C4_eddsa_challenge_witness :
    EddsaAttacker.compute_h (fun _ => [37]) 3 [1] [2] =
        specEddsaChallenge (fun _ => [37]) 3 [1] [2] ∧
      EddsaAttacker.compute_h (fun _ => [37]) 3 [1] [2] =
        FlawedEdDSASigner.compute_h (fun _ => [37]) (pyToBytesLE 32 (3 : Int).toNat) [1] [2] :=
  claim_C4_eddsa_challenge (fun _ => [37]) 3 [1] [2] (by decide) (by decide)

/-- **C5 (amended)**: over a curve oracle whose x-coordinate is missing
exactly on multiples of the (prime) order, the ECDSA-style affine signer
raises — producing no records and never retrying — exactly at the first
message index where either the consumed nonce is `≡ 0 (mod n)`
(`TypeError` from the missing x-coordinate) or the message fails strict
UTF-8 decoding (`UnicodeDecodeError` while appending the record); when
every consumed nonce is nonzero and every message decodes, it emits one
record per message, even where `r ≡ 0`.  (The original claim's further
assertion that it also fails whenever `r ≡ 0` is refuted by
`claim_C5_r_zero_counterexample`: the code never inspects `r`.) -/
theorem claim_C5_degenerate_nonce (sha256 : List Nat → List Nat)
    (pointX : Int → Option Int) (priv a b base : Int) (messages : List (List Nat))
    (hpx : ∀ k, pointX k = none ↔ k % (FlawedSigner.CURVE_ORDER : Int) = 0) :
    ((∀ j mj, messages.get? j = some mj →
        FlawedSigner.nonceAt a b base j % (FlawedSigner.CURVE_ORDER : Int) ≠ 0 ∧
          isValidUtf8 mj = true) →
      ∃ recs, FlawedSigner.sign_with_affine_nonces sha256 pointX priv messages base a b =
          .ok recs ∧ recs.length = messages.length) ∧
    (∀ j, j < messages.length →
      (∀ k mk, k < j → messages.get? k = some mk →
        FlawedSigner.nonceAt a b base k % (FlawedSigner.CURVE_ORDER : Int) ≠ 0 ∧
          isValidUtf8 mk = true) →
      FlawedSigner.nonceAt a b base j % (FlawedSigner.CURVE_ORDER : Int) = 0 →
      FlawedSigner.sign_with_affine_nonces sha256 pointX priv messages base a b =
        .error PyError.typeError) ∧
    (∀ j mj, messages.get? j = some mj →
      (∀ k mk, k < j → messages.get? k = some mk →
        FlawedSigner.nonceAt a b base k % (FlawedSigner.CURVE_ORDER : Int) ≠ 0 ∧
          isValidUtf8 mk = true) →
      FlawedSigner.nonceAt a b base j % (FlawedSigner.CURVE_ORDER : Int) ≠ 0 →
      isValidUtf8 mj = false →
      FlawedSigner.sign_with_affine_nonces sha256 pointX priv messages base a b =
        .error PyError.unicodeDecodeError) :=
  ⟨fun h => FlawedSigner.signAffineGo_ok sha256 pointX priv a b hpx messages 0 base h,
   fun j hj hk h0 =>
     FlawedSigner.signAffineGo_zero_nonce sha256 pointX priv a b hpx messages 0 base j
       hj hk h0,
   fun j mj hget hk hnz hbad =>
     FlawedSigner.signAffineGo_bad_decode sha256 pointX priv a b hpx messages 0 base j mj
       hget hk hnz hbad⟩

theorem claim_C5_degenerate_nonce_witness :
    FlawedSigner.sign_with_affine_nonces (fun _ => [])
        (fun k => if k % (FlawedSigner.CURVE_ORDER : Int) = 0 then none else some 0)
        0 [[1]] 0 0 0 = .error PyError.typeError :=
  (claim_C5_degenerate_nonce (fun _ => [])
      (fun k => if k % (FlawedSigner.CURVE_ORDER : Int) = 0 then none else some 0)
      0 0 0 0 [[1]]
      (fun k => by by_cases h : k % (FlawedSigner.CURVE_ORDER : Int) = 0 <;> simp [h])).2.1
    0 (by decide) (fun k mk hk _ => absurd hk (Nat.not_lt_zero k)) (by decide)

/-- **C5 (counterexample)**: with a nonzero nonce whose point has
x-coordinate `0`, the ECDSA-style affine signer raises nothing and
happily appends a degenerate record with `r = 0` — refuting the claim
that it fails whenever `r ≡ 0 (mod n)`. -/
theorem claim_C5_r_zero_counterexample :
    FlawedSigner.sign_with_affine_nonces (fun _ => [])
        (fun k => if k % (FlawedSigner.CURVE_ORDER : Int) = 0 then none else some 0)
        0 [[1]] 1 0 0 =
      Except.ok [{ message := [1], z := 0, r := 0, s := 0, nonce_index := 0 }] := by
  decide

/-- **C6**: the counter policy.  In the EdDSA-style signer,
`sign_with_counter_nonce` is literally the affine schedule with
`alpha = 1, beta = 1`, matching the claimed recurrence.  In the
ECDSA-style signer, however, the loop consumes
`(start_nonce + i*123456) % n`: at `start_nonce = 0` and message index
`1` the consumed nonce is `123456`, not the `start + 1 = 1` that the
claim (and the function's own docstring `k_i = k_1 + (i-1)`) describes. -/
theorem claim_C6_counter_policy :
    (∀ (sha512 : List Nat → List Nat) (signer : FlawedEdDSASigner.Signer)
       (messages : List (List Nat)) (start_nonce : Int),
       FlawedEdDSASigner.sign_with_counter_nonce sha512 signer messages start_nonce =
         FlawedEdDSASigner.sign_with_affine_nonces sha512 signer messages 1 1 start_nonce) ∧
    FlawedSigner.counterNonce 0 1 = 123456 ∧
    ((0 : Int) + 1) % (FlawedSigner.CURVE_ORDER : Int) = 1 :=
  ⟨fun _ _ _ _ => rfl, by decide, by decide⟩

/-- **C7**: the ECDSA-style challenge is SHA-256 of the message decoded
big-endian and reduced mod the secp256k1 order — the spec's transform
verbatim — and neither the nonce schedule, the curve oracle nor the
signing key enters it, so any two signature records over equal messages
carry equal challenges. -/
theorem claim_C7_ecdsa_challenge (sha256 : List Nat → List Nat) :
    (∀ message, FlawedSigner.hash_message sha256 message = specEcdsaChallenge sha256 message) ∧
    (∀ (pointX1 pointX2 : Int → Option Int) (priv1 priv2 : Int)
       (msgs1 msgs2 : List (List Nat)) (bn1 bn2 a1 b1 a2 b2 : Int)
       (recs1 recs2 : List FlawedSigner.SigRecord)
       (rec1 rec2 : FlawedSigner.SigRecord),
       FlawedSigner.sign_with_affine_nonces sha256 pointX1 priv1 msgs1 bn1 a1 b1 =
         .ok recs1 →
       FlawedSigner.sign_with_affine_nonces sha256 pointX2 priv2 msgs2 bn2 a2 b2 =
         .ok recs2 →
       rec1 ∈ recs1 → rec2 ∈ recs2 → rec1.message = rec2.message → rec1.z = rec2.z) := by
  refine ⟨fun _ => rfl, ?_⟩
  intro pointX1 pointX2 priv1 priv2 msgs1 msgs2 bn1 bn2 a1 b1 a2 b2 recs1 recs2 rec1 rec2
    hsig1 hsig2 hm1 hm2 hmeq
  have h1 := FlawedSigner.z_of_mem_signAffineGo sha256 pointX1 priv1 a1 b1 msgs1 0 bn1
    recs1 hsig1 rec1 hm1
  have h2 := FlawedSigner.z_of_mem_signAffineGo sha256 pointX2 priv2 a2 b2 msgs2 0 bn2
    recs2 hsig2 rec2 hm2
  rw [h1, h2, hmeq]

theorem claim_C7_ecdsa_challenge_witness :
    ({ message := [9], z := 2, r := 3, s := 2, nonce_index := 0 } :
        FlawedSigner.SigRecord).z =
      ({ message := [9], z := 2, r := 3, s := 5, nonce_index := 0 } :
        FlawedSigner.SigRecord).z :=
  (claim_C7_ecdsa_challenge (fun _ => [2])).2 (fun _ => some 3) (fun _ => some 3) 0 1
    [[9]] [[9]] 1 1 0 0 0 0
    [{ message := [9], z := 2, r := 3, s := 2, nonce_index := 0 }]
    [{ message := [9], z := 2, r := 3, s := 5, nonce_index := 0 }]
    { message := [9], z := 2, r := 3, s := 2, nonce_index := 0 }
    { message := [9], z := 2, r := 3, s := 5, nonce_index := 0 }
    (by decide) (by decide) (by decide) (by decide) (by decide)

/-- **C8**: for a fixed signer, message list, step and start nonce, the
closed-form hardcoded-step signer and the affine signer with
`alpha = 1, beta = step` produce exactly the same record list. -/
theorem claim_C8_hardcoded_step_equiv (sha512 : List Nat → List Nat)
    (signer : FlawedEdDSASigner.Signer) (messages : List (List Nat))
    (step start_nonce : Int) :
    FlawedEdDSASigner.sign_with_hardcoded_step sha512 signer messages step start_nonce =
      FlawedEdDSASigner.sign_with_affine_nonces sha512 signer messages 1 step start_nonce := by
  have h : start_nonce ≡ start_nonce + ((0 : Nat) : Int) * step
      [ZMOD (FlawedEdDSASigner.CURVE_ORDER : Int)] := by
    have e : start_nonce + ((0 : Nat) : Int) * step = start_nonce := by push_cast; ring
    rw [e]
  exact (FlawedEdDSASigner.signStepGo_eq_affine sha512 signer step start_nonce
    messages 0 start_nonce h).symm

namespace FlawedSigner

/-- The same-nonce signing loop completes whenever the fixed nonce is
invertible and every message decodes as UTF-8. -/
theorem signSameGo_ok (sha256 : List Nat → List Nat) (priv nonce r kinv : Int)
    (hinv : pyInvMod nonce (CURVE_ORDER : Int) = some kinv) :
    ∀ ms : List (List Nat), (∀ m ∈ ms, isValidUtf8 m = true) →
      ∃ recs, signSameGo sha256 priv nonce r ms = .ok recs := by
  intro ms
  induction ms with
  | nil => intro _; exact ⟨[], rfl⟩
  | cons m rest ih =>
    intro hval
    obtain ⟨recs0, h0⟩ := ih (fun mm hm => hval mm (List.mem_cons_of_mem _ hm))
    refine ⟨SameNonceRecord.mk m (hash_message sha256 m) r
        (kinv * (hash_message sha256 m + r * priv) % (CURVE_ORDER : Int)) :: recs0, ?_⟩
    simp only [signSameGo, hinv]
    rw [if_pos (hval m (List.mem_cons_self _ _)), h0]

/-- The counter signing loop completes whenever every consumed nonce
`(start + i*123456) % n` is nonzero and every message decodes as UTF-8. -/
theorem signCounterGo_ok (sha256 : List Nat → List Nat) (pointX : Int → Option Int)
    (priv start_nonce : Int)
    (hpx : ∀ k, pointX k = none ↔ k % (CURVE_ORDER : Int) = 0) :
    ∀ (ms : List (List Nat)) (i : Nat),
      (∀ j mj, ms.get? j = some mj →
        counterNonce start_nonce (i + j) ≠ 0 ∧ isValidUtf8 mj = true) →
      ∃ recs, signCounterGo sha256 pointX priv start_nonce i ms = .ok recs := by
  intro ms
  induction ms with
  | nil => intro i _; exact ⟨[], rfl⟩
  | cons m rest ih =>
    intro i hnz
    obtain ⟨h0, hval⟩ := hnz 0 m rfl
    have h0m : counterNonce start_nonce i % (CURVE_ORDER : Int) ≠ 0 := by
      have he : counterNonce start_nonce i % (CURVE_ORDER : Int) =
          counterNonce start_nonce i :=
        Int.emod_emod_of_dvd _ dvd_rfl
      rw [he]
      exact h0
    cases hpx0 : pointX (counterNonce start_nonce i) with
    | none => exact absurd ((hpx _).mp hpx0) h0m
    | some x =>
      have hgcd : Int.gcd (counterNonce start_nonce i) (CURVE_ORDER : Int) = 1 :=
        int_gcd_eq_one_of_prime secp256k1OrderPrime h0m
      have hinv : pyInvMod (counterNonce start_nonce i) (CURVE_ORDER : Int) =
          some (Int.sign (counterNonce start_nonce i) *
            (egcd ((CURVE_ORDER : Int)).natAbs (counterNonce start_nonce i).natAbs
              ((CURVE_ORDER : Int)).natAbs).2.1 % (CURVE_ORDER : Int)) := by
        rw [pyInvMod, if_pos hgcd]
      obtain ⟨recs0, h0rec⟩ := ih (i + 1) (fun j mj hget => by
        have h := hnz (j + 1) mj hget
        rwa [show i + (j + 1) = i + 1 + j by omega] at h)
      refine ⟨SigRecord.mk m (hash_message sha256 m) (x % (CURVE_ORDER : Int))
          (Int.sign (counterNonce start_nonce i) *
              (egcd ((CURVE_ORDER : Int)).natAbs (counterNonce start_nonce i).natAbs
                ((CURVE_ORDER : Int)).natAbs).2.1 % (CURVE_ORDER : Int) *
            (hash_message sha256 m + x % (CURVE_ORDER : Int) * priv) % (CURVE_ORDER : Int))
          i :: recs0, ?_⟩
      simp only [signCounterGo, hpx0, hinv]
      rw [if_pos hval, h0rec]

end FlawedSigner

/-- **C9 (amended)**: over a curve oracle whose x-coordinate is missing
exactly on multiples of the (prime) order, every run of
`generate_fixtures()` whose two random draws give nonzero nonces mod `n`
at every consumed index — all but a negligible fraction of draws — dies
with `AttributeError` at the `sign_with_hardcoded_step` lookup, a name
the `FlawedSigner` class body does not bind, having written exactly the
key-info, same-nonce and counter fixture files; so the hardcoded-step and
the two affine fixture files are never produced.  (The original "every
run" is refuted by `claim_C9_every_run_counterexample`: a run drawing
nonce `0` raises `TypeError` inside `sign_with_same_nonce` first.) -/
theorem claim_C9_fixture_run (sha256 : List Nat → List Nat) (pointX : Int → Option Int)
    (randomExp nonce_same counter_start : Int)
    (hpx : ∀ k, pointX k = none ↔ k % (FlawedSigner.CURVE_ORDER : Int) = 0)
    (hsame : nonce_same % (FlawedSigner.CURVE_ORDER : Int) ≠ 0)
    (hcounter : ∀ j, j < 5 → FlawedSigner.counterNonce counter_start j ≠ 0) :
    GenerateFixtures.generate_fixtures sha256 pointX randomExp nonce_same counter_start =
      GenerateFixtures.RunOutcome.attributeError "sign_with_hardcoded_step"
        ["test_key_info.json", "test_signatures_same_nonce.json",
         "test_signatures_counter.json"] ∧
    GenerateFixtures.flawedSignerMethods.contains "sign_with_hardcoded_step" = false := by
  have hvalid : ∀ m ∈ GenerateFixtures.fixtureMessages, isValidUtf8 m = true := by decide
  have hgcd : Int.gcd nonce_same (FlawedSigner.CURVE_ORDER : Int) = 1 :=
    int_gcd_eq_one_of_prime secp256k1OrderPrime hsame
  have hinv : pyInvMod nonce_same (FlawedSigner.CURVE_ORDER : Int) =
      some (Int.sign nonce_same *
        (egcd ((FlawedSigner.CURVE_ORDER : Int)).natAbs nonce_same.natAbs
          ((FlawedSigner.CURVE_ORDER : Int)).natAbs).2.1 %
        (FlawedSigner.CURVE_ORDER : Int)) := by
    rw [pyInvMod, if_pos hgcd]
  have hsame_ok : ∃ recs,
      FlawedSigner.sign_with_same_nonce sha256 pointX
        (FlawedSigner.init randomExp none).private_key GenerateFixtures.fixtureMessages
        nonce_same = .ok recs := by
    cases hpx0 : pointX nonce_same with
    | none => exact absurd ((hpx nonce_same).mp hpx0) hsame
    | some x =>
      obtain ⟨recs, hrecs⟩ := FlawedSigner.signSameGo_ok sha256
        (FlawedSigner.init randomExp none).private_key nonce_same
        (x % (FlawedSigner.CURVE_ORDER : Int)) _ hinv
        GenerateFixtures.fixtureMessages hvalid
      refine ⟨recs, ?_⟩
      simp only [FlawedSigner.sign_with_same_nonce, hpx0, hrecs]
  have hcnt_ok : ∃ recs,
      FlawedSigner.sign_with_counter_nonce sha256 pointX
        (FlawedSigner.init randomExp none).private_key GenerateFixtures.fixtureMessages
        counter_start = .ok recs := by
    refine FlawedSigner.signCounterGo_ok sha256 pointX
      (FlawedSigner.init randomExp none).private_key counter_start hpx
      GenerateFixtures.fixtureMessages 0 ?_
    intro j mj hget
    have hj : j < 5 := by
      have hlen := List.get?_eq_some.mp hget
      obtain ⟨hlt, _⟩ := hlen
      simpa using hlt
    refine ⟨?_, hvalid mj (List.get?_mem hget)⟩
    have h := hcounter j hj
    rwa [show j = 0 + j by omega] at h
  obtain ⟨recs1, h1⟩ := hsame_ok
  obtain ⟨recs2, h2⟩ := hcnt_ok
  constructor
  · simp only [GenerateFixtures.generate_fixtures, h1, h2]
    rw [if_neg (by decide)]
  · decide

theorem claim_C9_fixture_run_witness :
    GenerateFixtures.generate_fixtures (fun _ => [])
        (fun k => if k % (FlawedSigner.CURVE_ORDER : Int) = 0 then none else some 0)
        1 1 1 =
      GenerateFixtures.RunOutcome.attributeError "sign_with_hardcoded_step"
        ["test_key_info.json", "test_signatures_same_nonce.json",
         "test_signatures_counter.json"] ∧
    GenerateFixtures.flawedSignerMethods.contains "sign_with_hardcoded_step" = false :=
  claim_C9_fixture_run (fun _ => [])
    (fun k => if k % (FlawedSigner.CURVE_ORDER : Int) = 0 then none else some 0) 1 1 1
    (fun k => by by_cases h : k % (FlawedSigner.CURVE_ORDER : Int) = 0 <;> simp [h])
    (by decide) (by decide)

/-- **C9 (counterexample)**: a run of `generate_fixtures()` whose
`sign_with_same_nonce` stage draws nonce `0` raises `TypeError` at
`(0*G).x() % n` before the `sign_with_hardcoded_step` lookup is ever
reached, with only the key-info file written — so not every run raises
`AttributeError` at the hardcoded-step stage. -/
theorem claim_C9_every_run_counterexample :
    GenerateFixtures.generate_fixtures (fun _ => [])
        (fun k => if k % (FlawedSigner.CURVE_ORDER : Int) = 0 then none else some 0)
        1 0 1 =
      GenerateFixtures.RunOutcome.pyError PyError.typeError ["test_key_info.json"] := by
  decide

/-- **C10**: falsy private-key constructor inputs are silently replaced by
a freshly generated key: `FlawedEdDSASigner(b"")` takes the generate
branch without ever reaching the 32-byte length check, and
`FlawedSigner(0)` ignores the supplied `0` in favour of the generated
exponent. -/
theorem claim_C10_falsy_key_inputs (randomKey : List Nat)
    (publicKeyOf : List Nat → List Nat) (randomExp : Int) :
    FlawedEdDSASigner.init randomKey publicKeyOf (some []) =
      Except.ok { private_key := randomKey, public_key := publicKeyOf randomKey } ∧
    FlawedSigner.init randomExp (some 0) = { private_key := randomExp } :=
  ⟨rfl, rfl⟩
